import Mathlib

/-!
Shallow embedding of the mahjong-solitaire game engine
(`src/game/engine.ts`) together with the tile-catalog module it imports
(`src/game/tiles.ts`, absent from the sources; modelled from the spec).

Coordinates are embedded as rationals (the layouts use integer and
half-integer offsets), JavaScript string tile-ids as natural numbers
(the source issues ids from a monotone counter), and `Math.random()`
draws as an explicit oracle `f : Nat -> Nat` consumed at successive
indices, with the draw `Math.floor(Math.random() * n)` embedded as
`f k % n`.
-/

/-- A 3D layout position (source `LayoutPosition` / the position triples
threaded through `engine.ts`). -/
structure Pos where
  x : ℚ
  y : ℚ
  z : ℚ
deriving DecidableEq

instance : Inhabited Pos := ⟨⟨0, 0, 0⟩⟩

/-- Modelled from the spec: `tiles.ts` is absent from `src/`; per spec §3 a
`TileType` carries an identifier and an optional `matchGroup` key (display
attributes are irrelevant to the engine and omitted). -/
structure TileType where
  id : String
  matchGroup : Option String
deriving DecidableEq

instance : Inhabited TileType := ⟨⟨"", none⟩⟩

/-- Modelled from the spec: the 34 standard tile types (spec §4.3: "use every
catalog type exactly 4 times" for the 144 board, i.e. 34 types); standard
types have no match group (they match by identity). -/
def STANDARD_TILES : List TileType :=
  [⟨"dot-1", none⟩, ⟨"dot-2", none⟩, ⟨"dot-3", none⟩, ⟨"dot-4", none⟩,
   ⟨"dot-5", none⟩, ⟨"dot-6", none⟩, ⟨"dot-7", none⟩, ⟨"dot-8", none⟩,
   ⟨"dot-9", none⟩,
   ⟨"bam-1", none⟩, ⟨"bam-2", none⟩, ⟨"bam-3", none⟩, ⟨"bam-4", none⟩,
   ⟨"bam-5", none⟩, ⟨"bam-6", none⟩, ⟨"bam-7", none⟩, ⟨"bam-8", none⟩,
   ⟨"bam-9", none⟩,
   ⟨"man-1", none⟩, ⟨"man-2", none⟩, ⟨"man-3", none⟩, ⟨"man-4", none⟩,
   ⟨"man-5", none⟩, ⟨"man-6", none⟩, ⟨"man-7", none⟩, ⟨"man-8", none⟩,
   ⟨"man-9", none⟩,
   ⟨"wind-e", none⟩, ⟨"wind-s", none⟩, ⟨"wind-w", none⟩, ⟨"wind-n", none⟩,
   ⟨"dragon-r", none⟩, ⟨"dragon-g", none⟩, ⟨"dragon-w", none⟩]

/-- Modelled from the spec: the 8 bonus tile types, matched by group
(4 flowers, 4 seasons; spec §4.3 "34 types x 4 + 8 bonus", grouped). -/
def BONUS_TILES : List TileType :=
  [⟨"flower-1", some "flowers"⟩, ⟨"flower-2", some "flowers"⟩,
   ⟨"flower-3", some "flowers"⟩, ⟨"flower-4", some "flowers"⟩,
   ⟨"season-1", some "seasons"⟩, ⟨"season-2", some "seasons"⟩,
   ⟨"season-3", some "seasons"⟩, ⟨"season-4", some "seasons"⟩]

/-- Modelled from the spec: the full catalog. -/
def ALL_TILE_TYPES : List TileType := STANDARD_TILES ++ BONUS_TILES

/-- Modelled from the spec (§3): two types match iff they share the same
non-null `matchGroup`, or — when no group is set — iff they are the
identical type. -/
def tilesMatch (a b : TileType) : Bool :=
  match a.matchGroup, b.matchGroup with
  | some g1, some g2 => g1 == g2
  | _, _ => a.id == b.id

/-- Modelled from the spec: catalog lookup by type id. -/
def getTileTypeById (id : String) : Option TileType :=
  ALL_TILE_TYPES.find? (fun t => t.id == id)

/-- A placed tile (source `TileInstance`): counter-issued id, type reference
by id, spread-out position fields, and the removal flag. -/
structure TileInstance where
  id : ℕ
  typeId : String
  x : ℚ
  y : ℚ
  z : ℚ
  isRemoved : Bool
deriving DecidableEq

instance : Inhabited TileInstance := ⟨⟨0, "", 0, 0, 0, false⟩⟩

/-- The position triple of a tile (the source spreads `pos` into the
instance's `x`, `y`, `z` fields). -/
def TileInstance.pos (t : TileInstance) : Pos := ⟨t.x, t.y, t.z⟩

/-- Source `Layout` (from `layouts.ts`). -/
structure Layout where
  id : String
  name : String
  description : String
  positions : List Pos
deriving DecidableEq

/-- Source `GameBoard`. -/
structure GameBoard where
  tiles : List TileInstance
  layout : Layout
deriving DecidableEq

/-- Source `isFreeTile`: a non-removed tile is free iff no active tile lies
on top of it (strictly higher z, |Δx| < 0.9, |Δy| < 0.9) and at least one
horizontal side is open (a side is blocked by an active tile at the same z,
|Δy| < 0.9, whose x-offset on that side is strictly between 0 and 1.1). -/
def isFreeTile (tile : TileInstance) (allTiles : List TileInstance) : Bool :=
  if tile.isRemoved then false
  else
    let activeTiles := allTiles.filter (fun t => !t.isRemoved)
    let hasBlockingTop := activeTiles.any (fun other =>
      other.id != tile.id &&
      decide (tile.z < other.z) &&
      decide (|other.x - tile.x| < 9/10) &&
      decide (|other.y - tile.y| < 9/10))
    if hasBlockingTop then false
    else
      let hasBlockingLeft := activeTiles.any (fun other =>
        other.id != tile.id &&
        decide (other.z = tile.z) &&
        decide (|other.y - tile.y| < 9/10) &&
        decide (other.x < tile.x) && decide (tile.x - other.x < 11/10))
      let hasBlockingRight := activeTiles.any (fun other =>
        other.id != tile.id &&
        decide (other.z = tile.z) &&
        decide (|other.y - tile.y| < 9/10) &&
        decide (tile.x < other.x) && decide (other.x - tile.x < 11/10))
      !hasBlockingLeft || !hasBlockingRight

/-- All index-ordered pairs of a list: the embedding of the source's double
loop `for i; for j = i+1` in discovery order (ascending outer index, then
ascending inner index). -/
def allPairs : List α → List (α × α)
  | [] => []
  | x :: xs => xs.map (fun y => (x, y)) ++ allPairs xs

/-- Type-level match test between two tile instances via the catalog (the
source memoizes `getTileTypeById` per type id inside `findAllMatches`; the
memo is semantically transparent, so the embedding looks up directly). -/
def tilesMatchById (t1 t2 : TileInstance) : Bool :=
  match getTileTypeById t1.typeId, getTileTypeById t2.typeId with
  | some ty1, some ty2 => tilesMatch ty1 ty2
  | _, _ => false

/-- Source `findAllMatches`: filter to active tiles, compute the free subset,
then keep the matching index-ordered pairs of free tiles. -/
def findAllMatches (tiles : List TileInstance) : List (TileInstance × TileInstance) :=
  let activeTiles := tiles.filter (fun t => !t.isRemoved)
  let freeTiles := activeTiles.filter (fun t => isFreeTile t activeTiles)
  (allPairs freeTiles).filter (fun pr => tilesMatchById pr.1 pr.2)

/-- Source `checkWin`: all tiles removed. -/
def checkWin (tiles : List TileInstance) : Bool :=
  tiles.all (fun t => t.isRemoved)

/-- Source `checkStuck`: not won and no matches. -/
def checkStuck (tiles : List TileInstance) : Bool :=
  if checkWin tiles then false
  else (findAllMatches tiles).length == 0

/-- Source `removeTilePair`: flip `isRemoved` on the tiles whose id is one of
the two given ids, leaving every other tile untouched. -/
def removeTilePair (tiles : List TileInstance) (tile1Id tile2Id : ℕ) :
    List TileInstance :=
  tiles.map (fun t =>
    if t.id == tile1Id || t.id == tile2Id then { t with isRemoved := true }
    else t)

/-- Source `getHint`: the ids of the first match, if any. -/
def getHint (tiles : List TileInstance) : Option (ℕ × ℕ) :=
  match findAllMatches tiles with
  | [] => none
  | (t1, t2) :: _ => some (t1.id, t2.id)

/-- Source `isPositionAvailable`: availability of a position during reverse
generation, against the already-occupied positions only. -/
def isPositionAvailable (pos : Pos) (occupiedPositions : List Pos) : Bool :=
  let hasTop := occupiedPositions.any (fun other =>
    decide (pos.z < other.z) &&
    decide (|other.x - pos.x| < 9/10) &&
    decide (|other.y - pos.y| < 9/10))
  if hasTop then false
  else
    let hasLeft := occupiedPositions.any (fun other =>
      decide (other.z = pos.z) &&
      decide (|other.y - pos.y| < 9/10) &&
      decide (other.x < pos.x) && decide (pos.x - other.x < 11/10))
    let hasRight := occupiedPositions.any (fun other =>
      decide (other.z = pos.z) &&
      decide (|other.y - pos.y| < 9/10) &&
      decide (pos.x < other.x) && decide (other.x - pos.x < 11/10))
    !hasLeft || !hasRight

/-- Embedding of `Math.floor(Math.random() * n)`: the k-th draw from the
oracle `f`, reduced below `n` (0 when `n = 0`, as the JS expression is). -/
def randBelow (f : ℕ → ℕ) (k n : ℕ) : ℕ :=
  if n = 0 then 0 else f k % n

/-- The match-group key the source groups types by
(`t.matchGroup || t.id`). -/
def groupKey (t : TileType) : String := t.matchGroup.getD t.id

/-- The group keys of a type list in first-occurrence order (JS `Map`
iteration is insertion-ordered). -/
def orderedKeys (l : List TileType) : List String :=
  l.foldl (fun ks t => if groupKey t ∈ ks then ks else ks ++ [groupKey t]) []

/-- Pair up consecutive elements, dropping a trailing odd element — applied
to a reversed group this is the source's `while (group.length >= 2)
pairs.push([group.pop(), group.pop()])` loop. -/
def pairUp : List α → List (α × α)
  | a :: b :: rest => (a, b) :: pairUp rest
  | _ => []

/-- Source `assignSolvableTypes`, pairing phase: group the available types by
match key in insertion order, then pop matching pairs from the tail of each
group. -/
def buildMatchingPairs (l : List TileType) : List (TileType × TileType) :=
  (orderedKeys l).flatMap
    (fun key => pairUp ((l.filter (fun t => groupKey t == key)).reverse))

/-- Swap two indices of a list (used by the Fisher-Yates shuffle; reads both
elements before writing, like the JS destructuring swap). -/
def listSwap (l : List α) [Inhabited α] (i j : ℕ) : List α :=
  (l.set i (l.getD j default)).set j (l.getD i default)

/-- The source's Fisher-Yates loop body, iterating `i` from `n-1` down to 1;
one random draw per iteration. -/
def fyGo (f : ℕ → ℕ) [Inhabited α] : ℕ → List α → ℕ → List α × ℕ
  | 0, l, k => (l, k)
  | i + 1, l, k =>
      let j := randBelow f k (i + 2)
      fyGo f i (listSwap l (i + 1) j) (k + 1)

/-- Source in-place shuffle `for (let i = len-1; i > 0; i--) ... swap`. -/
def fisherYates (f : ℕ → ℕ) [Inhabited α] (l : List α) (k : ℕ) : List α × ℕ :=
  fyGo f (l.length - 1) l k

/-- Source `getDistance`, squared (the source compares
`Math.sqrt(dx*dx + (1.5*dy)*(1.5*dy))` against `MIN_DISTANCE = 4`; squaring
both sides of the monotone comparison keeps the test in ℚ). -/
def distSq (p1 p2 : Pos) : ℚ :=
  let dx := p1.x - p2.x
  let dy := (p1.y - p2.y) * (3/2)
  dx * dx + dy * dy

/-- `MIN_DISTANCE * MIN_DISTANCE` for the squared comparison. -/
def MIN_DISTANCE_SQ : ℚ := 16

/-- The source's bounded search for a well-separated pair: up to `n` (20)
attempts; each attempt draws a random first index, filters the positions far
enough from it, and draws a random second position when any exists. Returns
the final oracle index alongside the result. -/
def tryFindFarPair (f : ℕ → ℕ) : ℕ → List Pos → ℕ → Option (Pos × Pos) × ℕ
  | 0, _, k => (none, k)
  | n + 1, placeable, k =>
      let idx1 := randBelow f k placeable.length
      let candidatePos1 := placeable.getD idx1 default
      let farPositions :=
        (placeable.enum.filter (fun pi =>
          pi.1 != idx1 && decide (MIN_DISTANCE_SQ ≤ distSq candidatePos1 pi.2))).map
          Prod.snd
      if farPositions.isEmpty then tryFindFarPair f n placeable (k + 1)
      else
        let idx2 := randBelow f (k + 1) farPositions.length
        (some (candidatePos1, farPositions.getD idx2 default), k + 2)

/-- The evolving state of the source's pair-placement loop: positions placed
so far, positions still unused, tiles built so far, the oracle index, and
the tile-id counter. -/
structure PlaceState where
  occupied : List Pos
  avail : List Pos
  acc : List TileInstance
  k : ℕ
  c : ℕ
deriving DecidableEq

/-- One iteration of the source's `for (const [type1, type2] of
matchingPairs)` loop: filter the available positions, fail if fewer than two
are placeable, pick a (preferably far-apart) pair of positions, and commit
two freshly-numbered tiles. -/
def placePairStep (f : ℕ → ℕ) (st : PlaceState) (pr : TileType × TileType) :
    Option PlaceState :=
  let placeable := st.avail.filter (fun p => isPositionAvailable p st.occupied)
  if placeable.length < 2 then none
  else
    let (sel, k1) := tryFindFarPair f 20 placeable st.k
    let (pos1, pos2, k2) :=
      match sel with
      | some (p1, p2) => (p1, p2, k1)
      | none =>
          let i1 := randBelow f k1 placeable.length
          let p1 := placeable.getD i1 default
          let rest := placeable.eraseIdx i1
          let p2 := rest.getD (randBelow f (k1 + 1) rest.length) default
          (p1, p2, k1 + 2)
    some
      { occupied := st.occupied ++ [pos1, pos2]
        avail := (st.avail.erase pos1).erase pos2
        acc := st.acc ++
          [⟨st.c + 1, pr.1.id, pos1.x, pos1.y, pos1.z, false⟩,
           ⟨st.c + 2, pr.2.id, pos2.x, pos2.y, pos2.z, false⟩]
        k := k2
        c := st.c + 2 }

/-- Run the placement loop over the whole (shuffled) pair list; on a
dead-end (`placeable < 2`, detected before any draw of that step) fail with
the oracle index and counter as they stood. -/
def placeAllPairs (f : ℕ → ℕ) :
    List (TileType × TileType) → PlaceState → Option PlaceState × ℕ × ℕ
  | [], st => (some st, st.k, st.c)
  | pr :: rest, st =>
      match placePairStep f st pr with
      | none => (none, st.k, st.c)
      | some st' => placeAllPairs f rest st'

/-- Source `assignSolvableTypes`: build the matching pairs, shuffle their
placement order, then place them by reverse simulation; `none` when a
placement step dead-ends. Returns the final oracle index and id counter. -/
def assignSolvableTypes (positions : List Pos) (availableTypes : List TileType)
    (f : ℕ → ℕ) (k c : ℕ) : Option (List TileInstance) × ℕ × ℕ :=
  let pairs := buildMatchingPairs availableTypes
  let (shuffled, k1) := fisherYates f pairs k
  match placeAllPairs f shuffled ⟨[], positions, [], k1, c⟩ with
  | (some st, k2, c2) => (some st.acc, k2, c2)
  | (none, k2, c2) => (none, k2, c2)

/-- Source `generateBoard`, type-multiset loop for undersized layouts: draw
types at random without replacement, pushing 4 (or 2 when fewer than 4 slots
remain) copies each, recycling the pool when exhausted. -/
def buildTilePairs (posCount : ℕ) (acc : List TileType) (avail : List TileType)
    (f : ℕ → ℕ) (k : ℕ) : List TileType × ℕ :=
  if h : acc.length < posCount then
    let idx := randBelow f k avail.length
    let type := avail.getD idx default
    let avail1 := avail.eraseIdx idx
    let cnt := if 4 ≤ posCount - acc.length then 4 else 2
    let avail2 := if avail1.isEmpty then avail1 ++ STANDARD_TILES else avail1
    buildTilePairs posCount (acc ++ List.replicate cnt type) avail2 f (k + 1)
  else (acc, k)
termination_by posCount - acc.length
decreasing_by
  simp only [List.length_append, List.length_replicate]
  split <;> omega

/-- Source `generateBoard`, full-set multiset for 144-position layouts:
every standard type four times plus each grouped bonus type once. -/
def standardFullSet : List TileType :=
  STANDARD_TILES.flatMap (fun t => List.replicate 4 t) ++
    ALL_TILE_TYPES.filter (fun t => t.matchGroup.isSome)

/-- The type multiset `generateBoard` constructs before placement. -/
def mkTilePairs (posCount : ℕ) (f : ℕ → ℕ) (k : ℕ) : List TileType × ℕ :=
  if posCount = 144 then (standardFullSet, k)
  else buildTilePairs posCount [] STANDARD_TILES f k

/-- Source `generateBoard`, retry loop: up to `fuel` (50) fresh
reverse-simulation attempts, threading the oracle index and id counter. -/
def genAttempts (f : ℕ → ℕ) :
    ℕ → List Pos → List TileType → ℕ → ℕ → Option (List TileInstance) × ℕ × ℕ
  | 0, _, _, k, c => (none, k, c)
  | fuel + 1, positions, types, k, c =>
      match assignSolvableTypes positions types f k c with
      | (some tiles, k1, c1) => (some tiles, k1, c1)
      | (none, k1, c1) => genAttempts f fuel positions types k1 c1

/-- The non-degraded outcome of `generateBoard` (the value of the source's
`while (attempts < 50)` loop), if any. -/
def generateBoardAttempts (layout : Layout) (f : ℕ → ℕ) :
    Option (List TileInstance) × ℕ × ℕ :=
  let (tp, k) := mkTilePairs layout.positions.length f 0
  genAttempts f 50 layout.positions tp k 0

/-- Source `generateBoard`, degraded fallback: map the positions onto the
constructed type list in input order, with counter-issued ids continuing
from wherever the failed attempts left it. -/
def fallbackTiles (positions : List Pos) (tp : List TileType) (c : ℕ) :
    List TileInstance :=
  positions.enum.map (fun pi =>
    ⟨c + pi.1 + 1, (tp.getD pi.1 default).id, pi.2.x, pi.2.y, pi.2.z, false⟩)

/-- Source `generateBoard`: reset the id counter, build the type multiset,
try up to 50 reverse-simulation assignments, and fall back to a plain
positional assignment when all fail. -/
def generateBoard (layout : Layout) (f : ℕ → ℕ) : GameBoard :=
  let (tp, _) := mkTilePairs layout.positions.length f 0
  match generateBoardAttempts layout f with
  | (some tiles, _, _) => ⟨tiles, layout⟩
  | (none, _, c) => ⟨fallbackTiles layout.positions tp c, layout⟩

/-- Source `shuffleBoard`: re-run the solvable assignment over the active
tiles' positions and resolved types (20 attempts), filling back the removed
tiles; on exhaustion fall back to a Fisher-Yates permutation of the types
over the positions. Takes the oracle index and the current id counter, and
returns them updated. -/
def shuffleBoard (board : GameBoard) (f : ℕ → ℕ) (k c : ℕ) :
    GameBoard × ℕ × ℕ :=
  let activeTiles := board.tiles.filter (fun t => !t.isRemoved)
  let removedTiles := board.tiles.filter (fun t => t.isRemoved)
  let positions := activeTiles.map TileInstance.pos
  let types := activeTiles.filterMap (fun t => getTileTypeById t.typeId)
  match genAttempts f 20 positions types k c with
  | (some newActiveTiles, k1, c1) =>
      (⟨newActiveTiles ++ removedTiles, board.layout⟩, k1, c1)
  | (none, k1, c1) =>
      let (types2, k2) := fisherYates f types k1
      let fb := positions.enum.map (fun pi =>
        (⟨c1 + pi.1 + 1, (types2.getD pi.1 default).id,
          pi.2.x, pi.2.y, pi.2.z, false⟩ : TileInstance))
      (⟨fb ++ removedTiles, board.layout⟩, k2, c1 + positions.length)

/-- One legal removal in the sense of the solvability property: two distinct
active tiles, both free, whose types match, removed via `removeTilePair`. -/
def ClaimStep (L L' : List TileInstance) : Prop :=
  ∃ t1 t2, t1 ∈ L ∧ t2 ∈ L ∧ t1.id ≠ t2.id ∧
    t1.isRemoved = false ∧ t2.isRemoved = false ∧
    isFreeTile t1 L = true ∧ isFreeTile t2 L = true ∧
    tilesMatchById t1 t2 = true ∧
    L' = removeTilePair L t1.id t2.id

/-- A tile list is solvable when some finite sequence of legal removals
reaches a winning (all-removed) state. -/
def Solvable (L : List TileInstance) : Prop :=
  ∃ L', Relation.ReflTransGen ClaimStep L L' ∧ checkWin L' = true

/-- The two-position stacked layout: one position directly on top of the
other. -/
def twoStackLayout : Layout :=
  ⟨"twostack", "Two Stack", "two stacked positions", [⟨0, 0, 0⟩, ⟨0, 0, 1⟩]⟩

/-- C10: `checkWin` holds on the empty tile list (a zero-tile board counts
as won), hence `checkStuck` is false on it. -/
theorem checkWin_empty_checkStuck_empty :
    checkWin ([] : List TileInstance) = true ∧
    checkStuck ([] : List TileInstance) = false := by
  decide

/-- C8: `removeTilePair` keeps length and order, flips `isRemoved` on
exactly the tiles whose id is one of the two given ids, and leaves every
other tile unchanged in all fields; it is defined as a pure `map` and
performs no occlusion or match re-validation of the given ids. -/
theorem removeTilePair_spec (tiles : List TileInstance) (a b : ℕ) :
    (removeTilePair tiles a b).length = tiles.length ∧
    ∀ i, i < tiles.length →
      (removeTilePair tiles a b).getD i default =
        (if (tiles.getD i default).id = a ∨ (tiles.getD i default).id = b
         then { tiles.getD i default with isRemoved := true }
         else tiles.getD i default) := by
  constructor
  · simp [removeTilePair]
  · intro i hi
    have hi' : i < (removeTilePair tiles a b).length := by
      simpa [removeTilePair] using hi
    rw [List.getD_eq_getElem _ _ hi', List.getD_eq_getElem _ _ hi]
    simp only [removeTilePair, List.getElem_map]
    by_cases h1 : tiles[i].id = a <;> by_cases h2 : tiles[i].id = b <;>
      simp [h1, h2]

/-- Witness for `removeTilePair_spec` at a concrete list and index. -/
theorem removeTilePair_spec_witness :
    ((0 : ℕ) < 2) ∧
    (removeTilePair
        [⟨5, "dot-1", 0, 0, 0, false⟩, ⟨6, "dot-2", 1, 0, 0, false⟩]
        5 9).getD 0 default =
      ({ (([⟨5, "dot-1", 0, 0, 0, false⟩,
           ⟨6, "dot-2", 1, 0, 0, false⟩] : List TileInstance).getD 0 default)
          with isRemoved := true }) := by
  refine ⟨by decide, ?_⟩
  have h := (removeTilePair_spec
    [⟨5, "dot-1", 0, 0, 0, false⟩, ⟨6, "dot-2", 1, 0, 0, false⟩] 5 9).2
    0 (by decide)
  simpa using h

/-- A boolean test equivalent to a proposition is false exactly when the
proposition fails. -/
lemma bool_false_iff_not {b : Bool} {P : Prop} (h : b = true ↔ P) :
    b = false ↔ ¬P := by
  cases b <;> simp_all

/-- Characterization of `isFreeTile` as a proposition over the raw list. -/
lemma isFreeTile_iff (t : TileInstance) (L : List TileInstance) :
    isFreeTile t L = true ↔
      (t.isRemoved = false ∧
       (¬ ∃ o ∈ L, o.isRemoved = false ∧ o.id ≠ t.id ∧
          t.z < o.z ∧ |o.x - t.x| < 9/10 ∧ |o.y - t.y| < 9/10) ∧
       ((¬ ∃ o ∈ L, o.isRemoved = false ∧ o.id ≠ t.id ∧ o.z = t.z ∧
          |o.y - t.y| < 9/10 ∧ 0 < t.x - o.x ∧ t.x - o.x < 11/10) ∨
        (¬ ∃ o ∈ L, o.isRemoved = false ∧ o.id ≠ t.id ∧ o.z = t.z ∧
          |o.y - t.y| < 9/10 ∧ 0 < o.x - t.x ∧ o.x - t.x < 11/10))) := by
  have hTop : ((L.filter (fun u => !u.isRemoved)).any fun other =>
        other.id != t.id && decide (t.z < other.z) &&
        decide (|other.x - t.x| < 9/10) && decide (|other.y - t.y| < 9/10)) = true ↔
      ∃ o ∈ L, o.isRemoved = false ∧ o.id ≠ t.id ∧ t.z < o.z ∧
        |o.x - t.x| < 9/10 ∧ |o.y - t.y| < 9/10 := by
    simp [List.any_eq_true, List.mem_filter, and_assoc]
  have hLeft : ((L.filter (fun u => !u.isRemoved)).any fun other =>
        other.id != t.id && decide (other.z = t.z) &&
        decide (|other.y - t.y| < 9/10) &&
        decide (other.x < t.x) && decide (t.x - other.x < 11/10)) = true ↔
      ∃ o ∈ L, o.isRemoved = false ∧ o.id ≠ t.id ∧ o.z = t.z ∧
        |o.y - t.y| < 9/10 ∧ 0 < t.x - o.x ∧ t.x - o.x < 11/10 := by
    simp [List.any_eq_true, List.mem_filter, and_assoc, sub_pos]
  have hRight : ((L.filter (fun u => !u.isRemoved)).any fun other =>
        other.id != t.id && decide (other.z = t.z) &&
        decide (|other.y - t.y| < 9/10) &&
        decide (t.x < other.x) && decide (other.x - t.x < 11/10)) = true ↔
      ∃ o ∈ L, o.isRemoved = false ∧ o.id ≠ t.id ∧ o.z = t.z ∧
        |o.y - t.y| < 9/10 ∧ 0 < o.x - t.x ∧ o.x - t.x < 11/10 := by
    simp [List.any_eq_true, List.mem_filter, and_assoc, sub_pos]
  cases hr : t.isRemoved with
  | true => simp [isFreeTile, hr]
  | false =>
    simp only [isFreeTile, hr, if_false, Bool.false_eq_true, true_and]
    split
    case isTrue h =>
      simp only [Bool.false_eq_true, false_iff]
      exact fun hc => hc.1 (hTop.mp h)
    case isFalse h =>
      have h1 : ¬ ∃ o ∈ L, o.isRemoved = false ∧ o.id ≠ t.id ∧ t.z < o.z ∧
          |o.x - t.x| < 9/10 ∧ |o.y - t.y| < 9/10 :=
        fun hx => h (hTop.mpr hx)
      simp only [h1, not_false_iff, true_and]
      simp only [Bool.or_eq_true, Bool.not_eq_true']
      exact or_congr (bool_false_iff_not hLeft) (bool_false_iff_not hRight)

/-- C2: characterization of `isFreeTile` — false on removed tiles, and
otherwise true iff no active other tile lies strictly above within the
0.9-tolerance cell (strictly greater z, |Δx| < 0.9, |Δy| < 0.9), and at
least one horizontal side is free of an active same-layer tile at
x-distance strictly in (0, 1.1); removed tiles never act as blockers. -/
theorem isFreeTile_spec (t : TileInstance) (L : List TileInstance) :
    isFreeTile t L = true ↔
      (t.isRemoved = false ∧
       (¬ ∃ o ∈ L, o.isRemoved = false ∧ o.id ≠ t.id ∧
          t.z < o.z ∧ |o.x - t.x| < 9/10 ∧ |o.y - t.y| < 9/10) ∧
       ((¬ ∃ o ∈ L, o.isRemoved = false ∧ o.id ≠ t.id ∧ o.z = t.z ∧
          |o.y - t.y| < 9/10 ∧ 0 < t.x - o.x ∧ t.x - o.x < 11/10) ∨
        (¬ ∃ o ∈ L, o.isRemoved = false ∧ o.id ≠ t.id ∧ o.z = t.z ∧
          |o.y - t.y| < 9/10 ∧ 0 < o.x - t.x ∧ o.x - t.x < 11/10))) :=
  isFreeTile_iff t L

/-- Both components of an index-ordered pair are list members. -/
lemma allPairs_mem {α : Type} {l : List α} {a b : α}
    (h : (a, b) ∈ allPairs l) : a ∈ l ∧ b ∈ l := by
  induction l with
  | nil => simp [allPairs] at h
  | cons x xs ih =>
    simp only [allPairs, List.mem_append, List.mem_map] at h
    rcases h with ⟨y, hy, heq⟩ | h
    · obtain ⟨rfl, rfl⟩ := Prod.mk.injEq .. ▸ heq
      exact ⟨List.mem_cons_self .., List.mem_cons_of_mem _ hy⟩
    · exact ⟨List.mem_cons_of_mem _ (ih h).1, List.mem_cons_of_mem _ (ih h).2⟩

/-- On a list with pairwise-distinct images, the two components of an
index-ordered pair have distinct images. -/
lemma allPairs_map_ne {α β : Type} {l : List α} {f : α → β}
    (hl : (l.map f).Nodup) {a b : α} (h : (a, b) ∈ allPairs l) : f a ≠ f b := by
  induction l with
  | nil => simp [allPairs] at h
  | cons x xs ih =>
    simp only [List.map_cons, List.nodup_cons] at hl
    simp only [allPairs, List.mem_append, List.mem_map] at h
    rcases h with ⟨y, hy, heq⟩ | h
    · obtain ⟨rfl, rfl⟩ := Prod.mk.injEq .. ▸ heq
      exact fun hfe => hl.1 (hfe ▸ List.mem_map_of_mem f hy)
    · exact ih hl.2 h

/-- C6: every pair returned by `findAllMatches` consists of non-removed
tiles, free per `isFreeTile` against the active tiles, with matching types;
the two components have distinct ids whenever the input tiles' ids are
pairwise distinct; and the output is a sublist of the index-ordered pair
enumeration of the free-tile list (discovery order: ascending outer index,
then ascending inner index). -/
theorem findAllMatches_spec (tiles : List TileInstance)
    (p : TileInstance × TileInstance) (hp : p ∈ findAllMatches tiles) :
    (p.1.isRemoved = false ∧ p.2.isRemoved = false ∧
     isFreeTile p.1 (tiles.filter fun u => !u.isRemoved) = true ∧
     isFreeTile p.2 (tiles.filter fun u => !u.isRemoved) = true ∧
     tilesMatchById p.1 p.2 = true ∧
     ((tiles.map TileInstance.id).Nodup → p.1.id ≠ p.2.id)) ∧
    List.Sublist (findAllMatches tiles)
      (allPairs ((tiles.filter fun u => !u.isRemoved).filter
        fun u => isFreeTile u (tiles.filter fun w => !w.isRemoved))) := by
  have hsub : List.Sublist (findAllMatches tiles)
      (allPairs ((tiles.filter fun u => !u.isRemoved).filter
        fun u => isFreeTile u (tiles.filter fun w => !w.isRemoved))) := by
    simp only [findAllMatches]
    exact List.filter_sublist _
  refine ⟨?_, hsub⟩
  obtain ⟨t1, t2⟩ := p
  simp only [findAllMatches, List.mem_filter] at hp
  obtain ⟨hmem, hmatch⟩ := hp
  have h12 := allPairs_mem hmem
  have h1f := h12.1
  have h2f := h12.2
  simp only [List.mem_filter] at h1f h2f
  have h1a := h1f.1
  have h2a := h2f.1
  simp only [List.mem_filter, Bool.not_eq_true'] at h1a h2a
  refine ⟨h1a.2, h2a.2, h1f.2, h2f.2, hmatch, ?_⟩
  intro hn
  have hfreeN : (((tiles.filter fun u => !u.isRemoved).filter
      fun u => isFreeTile u (tiles.filter fun w => !w.isRemoved)).map
        TileInstance.id).Nodup := by
    refine hn.sublist (List.Sublist.map _ ?_)
    exact ((List.filter_sublist _).trans (List.filter_sublist _))
  exact allPairs_map_ne hfreeN hmem

/-- Witness for `findAllMatches_spec` on a two-tile matching board. -/
theorem findAllMatches_spec_witness :
    ((⟨1, "dot-1", 0, 0, 0, false⟩, ⟨2, "dot-1", 4, 0, 0, false⟩) ∈
      findAllMatches
        [⟨1, "dot-1", 0, 0, 0, false⟩, ⟨2, "dot-1", 4, 0, 0, false⟩]) ∧
    (1 : ℕ) ≠ 2 := by
  have h := findAllMatches_spec
    [⟨1, "dot-1", 0, 0, 0, false⟩, ⟨2, "dot-1", 4, 0, 0, false⟩]
    (⟨1, "dot-1", 0, 0, 0, false⟩, ⟨2, "dot-1", 4, 0, 0, false⟩)
    (by with_unfolding_all decide)
  exact ⟨by with_unfolding_all decide, h.1.2.2.2.2.2 (by decide)⟩

/-- C9: `getHint` returns `none` exactly when `findAllMatches` is empty, and
otherwise the ids of the first pair in `findAllMatches`'s output. -/
theorem getHint_spec (tiles : List TileInstance) :
    (getHint tiles = none ↔ findAllMatches tiles = []) ∧
    (∀ t1 t2 rest, findAllMatches tiles = (t1, t2) :: rest →
      getHint tiles = some (t1.id, t2.id)) := by
  cases h : findAllMatches tiles with
  | nil => simp [getHint, h]
  | cons pr rest =>
    obtain ⟨t1, t2⟩ := pr
    constructor
    · simp [getHint, h]
    · intro u1 u2 r hr
      injection hr with hpair hrest
      cases hpair
      simp [getHint, h]

/-- Witness for `getHint_spec` on a two-tile matching board. -/
theorem getHint_spec_witness :
    (findAllMatches
        [⟨1, "dot-1", 0, 0, 0, false⟩, ⟨2, "dot-1", 4, 0, 0, false⟩] =
      [(⟨1, "dot-1", 0, 0, 0, false⟩, ⟨2, "dot-1", 4, 0, 0, false⟩)]) ∧
    getHint [⟨1, "dot-1", 0, 0, 0, false⟩, ⟨2, "dot-1", 4, 0, 0, false⟩] =
      some (1, 2) := by
  refine ⟨by with_unfolding_all decide, ?_⟩
  exact (getHint_spec
    [⟨1, "dot-1", 0, 0, 0, false⟩, ⟨2, "dot-1", 4, 0, 0, false⟩]).2
    ⟨1, "dot-1", 0, 0, 0, false⟩ ⟨2, "dot-1", 4, 0, 0, false⟩ []
    (by with_unfolding_all decide)

/-- An active member of `removeTilePair L a b` is an untouched member of `L`
whose id is neither removed id. -/
lemma mem_active_removeTilePair {L : List TileInstance} {a b : ℕ}
    {o : TileInstance} (h : o ∈ removeTilePair L a b)
    (ho : o.isRemoved = false) : o ∈ L ∧ o.id ≠ a ∧ o.id ≠ b := by
  simp only [removeTilePair, List.mem_map] at h
  obtain ⟨u, hu, heq⟩ := h
  by_cases hid : (u.id == a || u.id == b) = true
  · rw [if_pos hid] at heq
    rw [← heq] at ho
    simp at ho
  · rw [if_neg hid] at heq
    subst heq
    simp only [Bool.or_eq_true, beq_iff_eq, not_or] at hid
    exact ⟨hu, hid.1, hid.2⟩

/-- C7 (amended): removals only preserve or increase free-ness of other
tiles; a tile with active adjacent neighbors on both sides at its z is never
free; and removing one such neighbor makes the tile free, provided no
active tile blocks it from above and the removed neighbor was its only
blocker on that side (the provisos are forced by the counterexample
`isFreeTile_neighbor_removal_cex`, where a fifth tile sits on top). -/
theorem isFreeTile_removal_monotone :
    (∀ (L : List TileInstance) (a b : ℕ) (t : TileInstance), t ∈ L →
      t.id ≠ a → t.id ≠ b → isFreeTile t L = true →
      isFreeTile t (removeTilePair L a b) = true) ∧
    (∀ (L : List TileInstance) (t l r : TileInstance),
      l ∈ L → r ∈ L → l.isRemoved = false → r.isRemoved = false →
      l.id ≠ t.id → r.id ≠ t.id → l.z = t.z → r.z = t.z →
      |l.y - t.y| < 9/10 → |r.y - t.y| < 9/10 →
      0 < t.x - l.x → t.x - l.x < 11/10 →
      0 < r.x - t.x → r.x - t.x < 11/10 →
      isFreeTile t L = false) ∧
    (∀ (L : List TileInstance) (t : TileInstance) (lid : ℕ),
      t.isRemoved = false → t.id ≠ lid →
      (¬ ∃ o ∈ L, o.isRemoved = false ∧ o.id ≠ t.id ∧
        t.z < o.z ∧ |o.x - t.x| < 9/10 ∧ |o.y - t.y| < 9/10) →
      (∀ o ∈ L, o.isRemoved = false → o.id ≠ t.id → o.z = t.z →
        |o.y - t.y| < 9/10 → 0 < t.x - o.x → t.x - o.x < 11/10 →
        o.id = lid) →
      isFreeTile t (removeTilePair L lid lid) = true) := by
  refine ⟨?_, ?_, ?_⟩
  · intro L a b t htL hta htb hfree
    rw [isFreeTile_iff] at hfree
    obtain ⟨hr, hTop, hSides⟩ := hfree
    rw [isFreeTile_iff]
    refine ⟨hr, ?_, ?_⟩
    · rintro ⟨o, hoL, hoR, hoid, hz, hx, hy⟩
      obtain ⟨hoL', -, -⟩ := mem_active_removeTilePair hoL hoR
      exact hTop ⟨o, hoL', hoR, hoid, hz, hx, hy⟩
    · rcases hSides with hL | hR
      · refine Or.inl ?_
        rintro ⟨o, hoL, hoR, rest⟩
        obtain ⟨hoL', -, -⟩ := mem_active_removeTilePair hoL hoR
        exact hL ⟨o, hoL', hoR, rest⟩
      · refine Or.inr ?_
        rintro ⟨o, hoL, hoR, rest⟩
        obtain ⟨hoL', -, -⟩ := mem_active_removeTilePair hoL hoR
        exact hR ⟨o, hoL', hoR, rest⟩
  · intro L t l r hlL hrL hla hra hlid hrid hlz hrz hly hry hlx1 hlx2 hrx1 hrx2
    cases hval : isFreeTile t L with
    | false => rfl
    | true =>
      rw [isFreeTile_iff] at hval
      obtain ⟨-, -, hSides⟩ := hval
      rcases hSides with hL | hR
      · exact absurd ⟨l, hlL, hla, hlid, hlz, hly, hlx1, hlx2⟩ hL
      · exact absurd ⟨r, hrL, hra, hrid, hrz, hry, hrx1, hrx2⟩ hR
  · intro L t lid hr htid hTop hLeftOnly
    rw [isFreeTile_iff]
    refine ⟨hr, ?_, Or.inl ?_⟩
    · rintro ⟨o, hoL, hoR, hoid, hz, hx, hy⟩
      obtain ⟨hoL', -, -⟩ := mem_active_removeTilePair hoL hoR
      exact hTop ⟨o, hoL', hoR, hoid, hz, hx, hy⟩
    · rintro ⟨o, hoL, hoR, hoid, hz, hy, hx1, hx2⟩
      obtain ⟨hoL', hne, -⟩ := mem_active_removeTilePair hoL hoR
      exact hne (hLeftOnly o hoL' hoR hoid hz hy hx1 hx2)

/-- Counterexample to C7 as stated: a tile flanked left and right by active
adjacent neighbors (the claim's scenario) that also carries a tile on top;
removing the left neighbor via `removeTilePair` does not make it free. -/
theorem isFreeTile_neighbor_removal_cex :
    ((⟨2, "dot-1", 0, 0, 0, false⟩ : TileInstance).isRemoved = false ∧
     (⟨3, "dot-1", 2, 0, 0, false⟩ : TileInstance).isRemoved = false ∧
     (0:ℚ) < (1:ℚ) - 0 ∧ (1:ℚ) - 0 < 11/10 ∧
     (0:ℚ) < (2:ℚ) - 1 ∧ (2:ℚ) - 1 < 11/10) ∧
    isFreeTile ⟨1, "dot-1", 1, 0, 0, false⟩
      [⟨1, "dot-1", 1, 0, 0, false⟩, ⟨2, "dot-1", 0, 0, 0, false⟩,
       ⟨3, "dot-1", 2, 0, 0, false⟩, ⟨4, "dot-1", 1, 0, 1, false⟩] = false ∧
    isFreeTile ⟨1, "dot-1", 1, 0, 0, false⟩
      (removeTilePair
        [⟨1, "dot-1", 1, 0, 0, false⟩, ⟨2, "dot-1", 0, 0, 0, false⟩,
         ⟨3, "dot-1", 2, 0, 0, false⟩, ⟨4, "dot-1", 1, 0, 1, false⟩]
        2 2) = false := by
  with_unfolding_all decide

/-- Witness for `isFreeTile_removal_monotone`, exercising all three
conjuncts on concrete boards. -/
theorem isFreeTile_removal_monotone_witness :
    isFreeTile ⟨1, "dot-1", 0, 0, 0, false⟩
      (removeTilePair
        [⟨1, "dot-1", 0, 0, 0, false⟩, ⟨2, "dot-1", 4, 0, 0, false⟩,
         ⟨3, "dot-1", 8, 0, 0, false⟩] 2 3) = true ∧
    isFreeTile ⟨1, "dot-1", 1, 0, 0, false⟩
      [⟨1, "dot-1", 1, 0, 0, false⟩, ⟨2, "dot-1", 0, 0, 0, false⟩,
       ⟨3, "dot-1", 2, 0, 0, false⟩] = false ∧
    isFreeTile ⟨1, "dot-1", 1, 0, 0, false⟩
      (removeTilePair
        [⟨1, "dot-1", 1, 0, 0, false⟩, ⟨2, "dot-1", 0, 0, 0, false⟩,
         ⟨3, "dot-1", 2, 0, 0, false⟩] 2 2) = true := by
  refine ⟨?_, ?_, ?_⟩
  · exact isFreeTile_removal_monotone.1
      [⟨1, "dot-1", 0, 0, 0, false⟩, ⟨2, "dot-1", 4, 0, 0, false⟩,
       ⟨3, "dot-1", 8, 0, 0, false⟩] 2 3 ⟨1, "dot-1", 0, 0, 0, false⟩
      (by with_unfolding_all decide) (by decide) (by decide)
      (by with_unfolding_all decide)
  · exact isFreeTile_removal_monotone.2.1
      [⟨1, "dot-1", 1, 0, 0, false⟩, ⟨2, "dot-1", 0, 0, 0, false⟩,
       ⟨3, "dot-1", 2, 0, 0, false⟩]
      ⟨1, "dot-1", 1, 0, 0, false⟩ ⟨2, "dot-1", 0, 0, 0, false⟩
      ⟨3, "dot-1", 2, 0, 0, false⟩
      (by decide) (by decide) (by decide) (by decide) (by decide) (by decide)
      (by with_unfolding_all decide) (by with_unfolding_all decide)
      (by with_unfolding_all decide) (by with_unfolding_all decide)
      (by with_unfolding_all decide) (by with_unfolding_all decide)
      (by with_unfolding_all decide) (by with_unfolding_all decide)
  · exact isFreeTile_removal_monotone.2.2
      [⟨1, "dot-1", 1, 0, 0, false⟩, ⟨2, "dot-1", 0, 0, 0, false⟩,
       ⟨3, "dot-1", 2, 0, 0, false⟩]
      ⟨1, "dot-1", 1, 0, 0, false⟩ 2
      (by decide) (by decide)
      (by with_unfolding_all decide) (by with_unfolding_all decide)

/-- On the two stacked positions every far-pair attempt fails (all pairwise
weighted distances are 0 < MIN_DISTANCE), consuming one draw per attempt. -/
lemma tryFindFar_twoStack (f : ℕ → ℕ) :
    ∀ n k, tryFindFarPair f n [(⟨0,0,0⟩ : Pos), ⟨0,0,1⟩] k = (none, k + n) := by
  intro n
  induction n with
  | zero => intro k; simp [tryFindFarPair]
  | succ n ih =>
    intro k
    rw [tryFindFarPair]
    simp only [List.length_cons, List.length_nil, randBelow, Nat.zero_add,
      OfNat.ofNat_ne_zero, if_false]
    rcases Nat.mod_two_eq_zero_or_one (f k) with h | h <;> rw [h]
    · with_unfolding_all
        exact (ih (k + 1)).trans (by rw [Nat.add_assoc, Nat.add_comm 1 n])
    · with_unfolding_all
        exact (ih (k + 1)).trans (by rw [Nat.add_assoc, Nat.add_comm 1 n])

/-- Two copies of a groupless type form exactly one matching pair. -/
lemma buildMatchingPairs_pair (ty : TileType) (h : ty.matchGroup = none) :
    buildMatchingPairs [ty, ty] = [(ty, ty)] := by
  simp [buildMatchingPairs, orderedKeys, groupKey, h, pairUp, List.filter]

/-- Shuffling a singleton is the identity and consumes no draws. -/
lemma fisherYates_singleton {α : Type} [Inhabited α] (f : ℕ → ℕ) (a : α) (k : ℕ) :
    fisherYates f [a] k = ([a], k) := by
  simp [fisherYates, fyGo]

/-- Unfolding equation of `placeAllPairs` on the empty pair list. -/
lemma placeAllPairs_nil (f : ℕ → ℕ) (st : PlaceState) :
    placeAllPairs f [] st = (some st, st.k, st.c) := rfl

/-- Unfolding equation of `placeAllPairs` on a cons. -/
lemma placeAllPairs_cons (f : ℕ → ℕ) (pr : TileType × TileType)
    (rest : List (TileType × TileType)) (st : PlaceState) :
    placeAllPairs f (pr :: rest) st =
      match placePairStep f st pr with
      | none => (none, st.k, st.c)
      | some st2 => placeAllPairs f rest st2 := rfl

/-- Reverse simulation on the stacked two-position layout always succeeds,
placing the pair onto the two stacked positions in one of the two orders:
the pair's partners block each other vertically, unchecked by
`isPositionAvailable` against the (empty) occupied set. -/
lemma assign_twoStack (f : ℕ → ℕ) (k c : ℕ) (ty : TileType)
    (h : ty.matchGroup = none) :
    assignSolvableTypes [(⟨0,0,0⟩ : Pos), ⟨0,0,1⟩] [ty, ty] f k c =
        (some [⟨c+1, ty.id, 0, 0, 0, false⟩, ⟨c+2, ty.id, 0, 0, 1, false⟩],
          k + 22, c + 2) ∨
    assignSolvableTypes [(⟨0,0,0⟩ : Pos), ⟨0,0,1⟩] [ty, ty] f k c =
        (some [⟨c+1, ty.id, 0, 0, 1, false⟩, ⟨c+2, ty.id, 0, 0, 0, false⟩],
          k + 22, c + 2) := by
  have hplace : (([(⟨0,0,0⟩ : Pos), ⟨0,0,1⟩]).filter
      (fun p => isPositionAvailable p ([] : List Pos))) =
      [(⟨0,0,0⟩ : Pos), ⟨0,0,1⟩] := by rfl
  rcases Nat.mod_two_eq_zero_or_one (f (k + 20)) with h20 | h20
  · refine Or.inl ?_
    have hstep : placePairStep f ⟨[], [(⟨0,0,0⟩ : Pos), ⟨0,0,1⟩], [], k, c⟩
        (ty, ty) = some ⟨[(⟨0,0,0⟩ : Pos), ⟨0,0,1⟩], [],
          [⟨c+1, ty.id, 0, 0, 0, false⟩, ⟨c+2, ty.id, 0, 0, 1, false⟩],
          k + 22, c + 2⟩ := by
      rw [placePairStep]
      rw [hplace]
      simp only [List.length_cons, List.length_nil]
      rw [if_neg (by omega)]
      rw [tryFindFar_twoStack]
      simp only [randBelow, OfNat.ofNat_ne_zero, if_false]
      rw [h20]
      try simp only [ite_self, List.eraseIdx_cons_zero, List.eraseIdx_cons_succ,
        List.length_cons, List.length_nil, Nat.mod_one, List.eraseIdx_nil]
      norm_num [Nat.mod_one]
    rw [assignSolvableTypes, buildMatchingPairs_pair ty h, fisherYates_singleton]
    simp only [placeAllPairs_cons, hstep, placeAllPairs_nil]
  · refine Or.inr ?_
    have hstep : placePairStep f ⟨[], [(⟨0,0,0⟩ : Pos), ⟨0,0,1⟩], [], k, c⟩
        (ty, ty) = some ⟨[(⟨0,0,1⟩ : Pos), ⟨0,0,0⟩], [],
          [⟨c+1, ty.id, 0, 0, 1, false⟩, ⟨c+2, ty.id, 0, 0, 0, false⟩],
          k + 22, c + 2⟩ := by
      rw [placePairStep]
      rw [hplace]
      simp only [List.length_cons, List.length_nil]
      rw [if_neg (by omega)]
      rw [tryFindFar_twoStack]
      simp only [randBelow, OfNat.ofNat_ne_zero, if_false]
      rw [h20]
      try simp only [ite_self, List.eraseIdx_cons_zero, List.eraseIdx_cons_succ,
        List.length_cons, List.length_nil, Nat.mod_one, List.eraseIdx_nil]
      norm_num [Nat.mod_one]
    rw [assignSolvableTypes, buildMatchingPairs_pair ty h, fisherYates_singleton]
    simp only [placeAllPairs_cons, hstep, placeAllPairs_nil]

/-- The type-multiset loop for a 2-position layout draws one random standard
type and pushes it twice. -/
lemma buildTilePairs_two (f : ℕ → ℕ) (k : ℕ) :
    buildTilePairs 2 [] STANDARD_TILES f k =
      ([STANDARD_TILES.getD (f k % 34) default,
        STANDARD_TILES.getD (f k % 34) default], k + 1) := by
  rw [buildTilePairs]
  rw [dif_pos (by simp)]
  rw [buildTilePairs]
  rw [dif_neg (by simp)]
  simp only [randBelow, show STANDARD_TILES.length = 34 from rfl]
  norm_num [List.replicate]

/-- Unfolding equation of the retry loop. -/
lemma genAttempts_succ (f : ℕ → ℕ) (fuel : ℕ) (positions : List Pos)
    (types : List TileType) (k c : ℕ) :
    genAttempts f (fuel + 1) positions types k c =
      match assignSolvableTypes positions types f k c with
      | (some tiles, k1, c1) => (some tiles, k1, c1)
      | (none, k1, c1) => genAttempts f fuel positions types k1 c1 := rfl

/-- For every oracle, `generateBoard` on the stacked layout takes the
non-degraded path on its first attempt and returns the two stacked tiles of
one random standard type, in one of two orders. -/
lemma generateBoard_twoStack (f : ℕ → ℕ) :
    ∃ s : String,
      (generateBoardAttempts twoStackLayout f =
          (some [⟨1, s, 0, 0, 0, false⟩, ⟨2, s, 0, 0, 1, false⟩], 23, 2) ∧
        generateBoard twoStackLayout f =
          ⟨[⟨1, s, 0, 0, 0, false⟩, ⟨2, s, 0, 0, 1, false⟩], twoStackLayout⟩) ∨
      (generateBoardAttempts twoStackLayout f =
          (some [⟨1, s, 0, 0, 1, false⟩, ⟨2, s, 0, 0, 0, false⟩], 23, 2) ∧
        generateBoard twoStackLayout f =
          ⟨[⟨1, s, 0, 0, 1, false⟩, ⟨2, s, 0, 0, 0, false⟩], twoStackLayout⟩) := by
  refine ⟨(STANDARD_TILES.getD (f 0 % 34) default).id, ?_⟩
  have hmg : (STANDARD_TILES.getD (f 0 % 34) default).matchGroup = none := by
    rcases Nat.lt_or_ge (f 0 % 34) STANDARD_TILES.length with hlt | hge
    · rw [List.getD_eq_getElem _ _ hlt]
      have hall : ∀ t ∈ STANDARD_TILES, t.matchGroup = none := by decide
      exact hall _ (List.getElem_mem _)
    · rw [List.getD_eq_default _ _ hge]
      rfl
  have hmk : mkTilePairs twoStackLayout.positions.length f 0 =
      ([STANDARD_TILES.getD (f 0 % 34) default,
        STANDARD_TILES.getD (f 0 % 34) default], 1) := by
    show mkTilePairs 2 f 0 = _
    rw [mkTilePairs, if_neg (by omega)]
    exact buildTilePairs_two f 0
  have hGBA : generateBoardAttempts twoStackLayout f =
      genAttempts f 50 twoStackLayout.positions
        [STANDARD_TILES.getD (f 0 % 34) default,
         STANDARD_TILES.getD (f 0 % 34) default] 1 0 := by
    rw [generateBoardAttempts, hmk]
  rw [show twoStackLayout.positions = [(⟨0,0,0⟩ : Pos), ⟨0,0,1⟩] from rfl]
    at hGBA
  rcases assign_twoStack f 1 0 (STANDARD_TILES.getD (f 0 % 34) default) hmg
    with hA | hA
  · refine Or.inl ?_
    have h50 : generateBoardAttempts twoStackLayout f =
        (some [⟨1, (STANDARD_TILES.getD (f 0 % 34) default).id, 0, 0, 0, false⟩,
               ⟨2, (STANDARD_TILES.getD (f 0 % 34) default).id, 0, 0, 1, false⟩],
          23, 2) := by
      rw [hGBA, show (50 : ℕ) = 49 + 1 from rfl, genAttempts_succ, hA]
    refine ⟨h50, ?_⟩
    rw [generateBoard, hmk]
    simp only [h50]
  · refine Or.inr ?_
    have h50 : generateBoardAttempts twoStackLayout f =
        (some [⟨1, (STANDARD_TILES.getD (f 0 % 34) default).id, 0, 0, 1, false⟩,
               ⟨2, (STANDARD_TILES.getD (f 0 % 34) default).id, 0, 0, 0, false⟩],
          23, 2) := by
      rw [hGBA, show (50 : ℕ) = 49 + 1 from rfl, genAttempts_succ, hA]
    refine ⟨h50, ?_⟩
    rw [generateBoard, hmk]
    simp only [h50]

/-- A non-won position with no legal step at all is unsolvable. -/
lemma not_solvable_of_no_step {L : List TileInstance}
    (hwin : checkWin L = false) (hstep : ∀ L', ¬ ClaimStep L L') :
    ¬ Solvable L := by
  rintro ⟨L', hsteps, hw⟩
  rcases Relation.ReflTransGen.cases_head hsteps with rfl | ⟨mid, hmid, -⟩
  · rw [hw] at hwin
    exact absurd hwin (by simp)
  · exact hstep mid hmid

/-- The stacked two-tile board (bottom id 1) admits no legal removal: the
bottom tile is blocked above by its own pair partner, so no pair of free
matching tiles exists, and the board can never be cleared. -/
lemma stacked_not_solvable_A (s : String) :
    ¬ Solvable [⟨1, s, 0, 0, 0, false⟩, ⟨2, s, 0, 0, 1, false⟩] := by
  apply not_solvable_of_no_step
  · rfl
  · intro L'
    rintro ⟨t1, t2, h1, h2, hne, -, -, hf1, hf2, -, -⟩
    have hbot : isFreeTile (⟨1, s, 0, 0, 0, false⟩ : TileInstance)
        [⟨1, s, 0, 0, 0, false⟩, ⟨2, s, 0, 0, 1, false⟩] = false := by
      with_unfolding_all rfl
    simp only [List.mem_cons, List.mem_singleton, List.not_mem_nil,
      or_false] at h1 h2
    rcases h1 with rfl | rfl
    · rw [hbot] at hf1
      exact absurd hf1 (by simp)
    · rcases h2 with rfl | rfl
      · rw [hbot] at hf2
        exact absurd hf2 (by simp)
      · exact hne rfl

/-- As `stacked_not_solvable_A`, with the placement order reversed. -/
lemma stacked_not_solvable_B (s : String) :
    ¬ Solvable [⟨1, s, 0, 0, 1, false⟩, ⟨2, s, 0, 0, 0, false⟩] := by
  apply not_solvable_of_no_step
  · rfl
  · intro L'
    rintro ⟨t1, t2, h1, h2, hne, -, -, hf1, hf2, -, -⟩
    have hbot : isFreeTile (⟨2, s, 0, 0, 0, false⟩ : TileInstance)
        [⟨1, s, 0, 0, 1, false⟩, ⟨2, s, 0, 0, 0, false⟩] = false := by
      with_unfolding_all rfl
    simp only [List.mem_cons, List.mem_singleton, List.not_mem_nil,
      or_false] at h1 h2
    rcases h1 with rfl | rfl
    · rcases h2 with rfl | rfl
      · exact hne rfl
      · rw [hbot] at hf2
        exact absurd hf2 (by simp)
    · rw [hbot] at hf1
      exact absurd hf1 (by simp)

/-- C1 (code bug): on the layout with two stacked positions, for every
random oracle, `generateBoard` returns through the non-degraded
reverse-simulation path (`generateBoardAttempts` yields `some`), yet the
resulting board admits no sequence of legal free-pair removals reaching
`checkWin` — the two tiles of the single pair block each other vertically,
which `isPositionAvailable` never checks. This contradicts the claimed
solvability guarantee. -/
theorem generateBoard_solvability_code_bug (f : ℕ → ℕ) :
    ∃ tiles k c, generateBoardAttempts twoStackLayout f = (some tiles, k, c) ∧
      (generateBoard twoStackLayout f).tiles = tiles ∧ ¬ Solvable tiles := by
  obtain ⟨s, ⟨hGBA, hB⟩ | ⟨hGBA, hB⟩⟩ := generateBoard_twoStack f
  · exact ⟨_, _, _, hGBA, by rw [hB], stacked_not_solvable_A s⟩
  · exact ⟨_, _, _, hGBA, by rw [hB], stacked_not_solvable_B s⟩

/-- C3 (code bug): on the layout with two stacked positions (nonzero
position count), `checkStuck` immediately after generation is `true` for
every random oracle, contradicting the claim that a first move always
exists on a freshly generated board. -/
theorem generateBoard_checkStuck_code_bug (f : ℕ → ℕ) :
    twoStackLayout.positions.length ≠ 0 ∧
    checkStuck (generateBoard twoStackLayout f).tiles = true := by
  refine ⟨by norm_num [twoStackLayout], ?_⟩
  obtain ⟨s, ⟨-, hB⟩ | ⟨-, hB⟩⟩ := generateBoard_twoStack f
  · rw [hB]
    with_unfolding_all rfl
  · rw [hB]
    with_unfolding_all rfl

/-- A list is, as a multiset, its indexed element plus the rest. -/
lemma coe_eraseIdx_cons {α : Type} (l : List α) (i : ℕ) (h : i < l.length) :
    (l : Multiset α) = l[i] ::ₘ (l.eraseIdx i : List α) := by
  rw [List.eraseIdx_eq_take_drop_succ]
  conv_lhs => rw [← List.take_append_drop i l, List.drop_eq_getElem_cons h]
  simp only [← Multiset.coe_add, ← Multiset.cons_coe]
  rw [Multiset.add_cons]

/-- Two distinct valid indices contribute a two-element submultiset. -/
lemma pair_le_of_indices {α : Type} (l : List α) (i j : ℕ) (hi : i < l.length)
    (hj : j < l.length) (hij : i ≠ j) :
    ({l[i], l[j]} : Multiset α) ≤ (l : Multiset α) := by
  have h1 := coe_eraseIdx_cons l i hi
  have hj' : l[j] ∈ l.eraseIdx i := by
    rw [List.eraseIdx_eq_take_drop_succ]
    rcases Nat.lt_or_ge j i with hlt | hge
    · refine List.mem_append_left _ ?_
      have hjt : j < (l.take i).length := by
        simp only [List.length_take]
        omega
      have : (l.take i)[j] = l[j] := by
        rw [List.getElem_take]
      exact this ▸ List.getElem_mem _
    · have hgt : i < j := lt_of_le_of_ne hge hij
      refine List.mem_append_right _ ?_
      have hlen : j - (i + 1) < (l.drop (i + 1)).length := by
        simp [List.length_drop]; omega
      have : (l.drop (i + 1))[j - (i + 1)] = l[j] := by
        rw [List.getElem_drop]
        congr 1
        omega
      exact this ▸ List.getElem_mem _
  rw [h1]
  rw [show ({l[i], l[j]} : Multiset α) = l[i] ::ₘ {l[j]} from rfl]
  exact Multiset.cons_le_cons _ (Multiset.singleton_le.mpr hj')

/-- A reduced draw is below its (positive) bound. -/
lemma randBelow_lt (f : ℕ → ℕ) (k n : ℕ) (h : 0 < n) : randBelow f k n < n := by
  simp only [randBelow, if_neg (by omega : ¬ n = 0)]
  exact Nat.mod_lt _ h

/-- A pair found by the far-pair search is a submultiset of the placeable
positions (the two picks have distinct indices). -/
lemma tryFindFar_mem (f : ℕ → ℕ) {pl : List Pos} (hlen : 0 < pl.length) :
    ∀ n k k' p1 p2, tryFindFarPair f n pl k = (some (p1, p2), k') →
    ({p1, p2} : Multiset Pos) ≤ (pl : Multiset Pos) := by
  intro n
  induction n with
  | zero => intro k k' p1 p2 h; simp [tryFindFarPair] at h
  | succ n ih =>
    intro k k' p1 p2 h
    rw [tryFindFarPair] at h
    split at h
    · exact ih _ _ _ _ h
    · next hne =>
      injection h with h1 h2
      injection h1 with h1
      obtain ⟨rfl, rfl⟩ := Prod.mk.injEq .. ▸ h1
      have hi1 : randBelow f k pl.length < pl.length := randBelow_lt f k _ hlen
      set idx1 := randBelow f k pl.length with hidx
      set far := ((pl.enum.filter (fun pi =>
          pi.1 != idx1 && decide (MIN_DISTANCE_SQ ≤
            distSq (pl.getD idx1 default) pi.2))).map Prod.snd) with hfar
      have hfarne : far ≠ [] := by
        intro hcon
        rw [hcon] at hne
        simp at hne
      have hi2 : randBelow f (k + 1) far.length < far.length :=
        randBelow_lt f _ _ (List.length_pos.mpr hfarne)
      have hp2 : far.getD (randBelow f (k + 1) far.length) default ∈ far := by
        rw [List.getD_eq_getElem _ _ hi2]
        exact List.getElem_mem _
      rw [hfar] at hp2
      simp only [List.mem_map, List.mem_filter] at hp2
      obtain ⟨⟨i, p⟩, ⟨hmem, hcond⟩, hsnd⟩ := hp2
      rw [List.mk_mem_enum_iff_getElem?] at hmem
      have hilen : i < pl.length := (List.getElem?_eq_some.mp hmem).1
      have hpi : pl[i] = p := by
        have := List.getElem?_eq_some.mp hmem
        obtain ⟨hh, hv⟩ := this
        exact hv
      simp only [Bool.and_eq_true, bne_iff_ne, ne_eq] at hcond
      have hine : i ≠ idx1 := hcond.1
      have hgd : pl.getD idx1 default = pl[idx1] :=
        List.getD_eq_getElem _ _ hi1
      rw [hgd]
      have := pair_le_of_indices pl idx1 i hi1 hilen (Ne.symm hine)
      rw [hpi] at this
      simp only at hsnd
      rw [← hsnd]
      exact this

/-- Removing a two-element submultiset and adding it back restores the
multiset. -/
lemma cons_cons_erase_erase {α : Type} [DecidableEq α] {s : Multiset α}
    {a b : α} (h : ({a, b} : Multiset α) ≤ s) :
    s = a ::ₘ b ::ₘ ((s.erase a).erase b) := by
  have ha : a ∈ s := Multiset.mem_of_le h (by simp)
  have hb : b ∈ s.erase a := by
    have hc := Multiset.le_iff_count.mp h b
    by_cases hab : b = a
    · subst hab
      rw [Multiset.count_pos.symm.trans Iff.rfl] at *
      rw [Multiset.count_erase_self]
      have : Multiset.count b {b, b} = 2 := by simp [Multiset.insert_eq_cons]
      omega
    · rw [← Multiset.count_pos, Multiset.count_erase_of_ne hab]
      have : Multiset.count b {a, b} = 1 := by
        simp [Multiset.insert_eq_cons, Multiset.count_cons, hab]
      omega
  calc s = a ::ₘ s.erase a := (Multiset.cons_erase ha).symm
    _ = a ::ₘ (b ::ₘ (s.erase a).erase b) := by rw [Multiset.cons_erase hb]

/-- A successful placement step consumes a two-position submultiset of the
available positions, appends two fresh consecutive-id active tiles carrying
the pair types at those positions, and advances the id counter by two. -/
lemma placePairStep_spec {f : ℕ → ℕ} {st : PlaceState}
    {pr : TileType × TileType} {st' : PlaceState}
    (h : placePairStep f st pr = some st') :
    ∃ p1 p2,
      ({p1, p2} : Multiset Pos) ≤ (st.avail : Multiset Pos) ∧
      st'.avail = (st.avail.erase p1).erase p2 ∧
      st'.acc = st.acc ++
        [⟨st.c + 1, pr.1.id, p1.x, p1.y, p1.z, false⟩,
         ⟨st.c + 2, pr.2.id, p2.x, p2.y, p2.z, false⟩] ∧
      st'.c = st.c + 2 := by
  rw [placePairStep] at h
  set placeable := st.avail.filter (fun p => isPositionAvailable p st.occupied)
    with hpl
  have hple : (placeable : Multiset Pos) ≤ (st.avail : Multiset Pos) := by
    rw [hpl]
    exact (List.filter_sublist _).subperm
  split at h
  · exact absurd h (by simp)
  next hlen2 =>
    have hlen0 : 0 < placeable.length := by omega
    rcases htf : tryFindFarPair f 20 placeable st.k with ⟨sel, k1⟩
    rw [htf] at h
    cases sel with
    | some pp =>
      obtain ⟨p1, p2⟩ := pp
      injection h with h
      refine ⟨p1, p2, ?_, ?_, ?_, ?_⟩
      · exact le_trans (tryFindFar_mem f hlen0 20 st.k k1 p1 p2 htf) hple
      · rw [← h]
      · rw [← h]
      · rw [← h]
    | none =>
      set i1 := randBelow f k1 placeable.length with hi1def
      have hi1 : i1 < placeable.length := randBelow_lt f k1 _ hlen0
      set rest := placeable.eraseIdx i1 with hrest
      have hrlen : 0 < rest.length := by
        have := List.length_eraseIdx_add_one (l := placeable) (i := i1) hi1
        rw [← hrest] at this
        omega
      set i2 := randBelow f (k1 + 1) rest.length with hi2def
      have hi2 : i2 < rest.length := randBelow_lt _ _ _ hrlen
      have hcoe : (placeable : Multiset Pos) =
          placeable[i1] ::ₘ (rest : Multiset Pos) := coe_eraseIdx_cons _ _ hi1
      have hp1 : placeable.getD i1 default = placeable[i1] :=
        List.getD_eq_getElem _ _ hi1
      have hp2mem : rest.getD i2 default ∈ rest := by
        rw [List.getD_eq_getElem _ _ hi2]
        exact List.getElem_mem _
      have hpair : ({placeable.getD i1 default, rest.getD i2 default} :
          Multiset Pos) ≤ (placeable : Multiset Pos) := by
        rw [hcoe, hp1]
        exact Multiset.cons_le_cons _ (Multiset.singleton_le.mpr hp2mem)
      injection h with h
      exact ⟨placeable.getD i1 default, rest.getD i2 default,
        le_trans hpair hple, by rw [← h], by rw [← h], by rw [← h]⟩

/-- Setting an index replaces, as multisets, the indexed element. -/
lemma coe_set_eq {α : Type} (l : List α) (n : ℕ) (a : α) (h : n < l.length) :
    (l.set n a : List α) = (a ::ₘ (l.eraseIdx n : List α) : Multiset α) := by
  rw [List.set_eq_take_cons_drop a h, List.eraseIdx_eq_take_drop_succ]
  simp only [← Multiset.coe_add, ← Multiset.cons_coe]
  rw [Multiset.add_cons]

/-- Erasing at a valid index equals erasing the indexed element, as
multisets. -/
lemma coe_eraseIdx_eq_erase {α : Type} [DecidableEq α] (l : List α) (n : ℕ)
    (h : n < l.length) :
    ((l.eraseIdx n : List α) : Multiset α) = (l : Multiset α).erase l[n] := by
  have h1 := coe_eraseIdx_cons l n h
  rw [h1, Multiset.erase_cons_head]

/-- An index swap preserves the multiset of elements. -/
lemma listSwap_coe {α : Type} [DecidableEq α] [Inhabited α] (l : List α)
    (i j : ℕ) (hi : i < l.length) (hj : j < l.length) :
    ((listSwap l i j : List α) : Multiset α) = (l : Multiset α) := by
  have hA : l.getD j default = l[j] := List.getD_eq_getElem _ _ hj
  have hB : l.getD i default = l[i] := List.getD_eq_getElem _ _ hi
  have hlen1 : (l.set i (l.getD j default)).length = l.length := by simp
  have hj1 : j < (l.set i (l.getD j default)).length := by omega
  have hm1 : ((l.set i (l.getD j default) : List α) : Multiset α) =
      l[j] ::ₘ (l : Multiset α).erase l[i] := by
    rw [coe_set_eq _ _ _ hi, coe_eraseIdx_eq_erase _ _ hi, hA]
  have hval : (l.set i (l.getD j default))[j] = l[j] := by
    by_cases hij : i = j
    · subst hij
      rw [List.getElem_set_self]
      exact hA
    · rw [List.getElem_set_ne hij]
  rw [listSwap, coe_set_eq _ _ _ hj1, coe_eraseIdx_eq_erase _ _ hj1, hval, hm1,
    Multiset.erase_cons_head, hB, Multiset.cons_erase (List.getElem_mem hi)]

/-- The Fisher-Yates loop body preserves the multiset of elements. -/
lemma fyGo_fst_coe {α : Type} [DecidableEq α] [Inhabited α] (f : ℕ → ℕ) :
    ∀ (i : ℕ) (l : List α) (k : ℕ), i < l.length →
      (((fyGo f i l k).1 : List α) : Multiset α) = (l : Multiset α) := by
  intro i
  induction i with
  | zero => intro l k _; rfl
  | succ i ih =>
    intro l k hlt
    rw [fyGo]
    have hj : randBelow f k (i + 2) < i + 2 := randBelow_lt f k _ (by omega)
    have hswaplen : (listSwap l (i + 1) (randBelow f k (i + 2))).length =
        l.length := by
      simp [listSwap]
    rw [ih _ (k + 1) (by omega)]
    exact listSwap_coe l (i + 1) _ hlt (by omega)

/-- The Fisher-Yates shuffle is a permutation. -/
lemma fisherYates_fst_coe {α : Type} [DecidableEq α] [Inhabited α] (f : ℕ → ℕ)
    (l : List α) (k : ℕ) :
    (((fisherYates f l k).1 : List α) : Multiset α) = (l : Multiset α) := by
  cases l with
  | nil => rfl
  | cons a as =>
    rw [fisherYates]
    exact fyGo_fst_coe f _ _ k (by simp)

/-- Fold invariant of the placement loop: the placed tiles account for a
submultiset of the initial available positions, carry the shuffled pair
types in order, get fresh strictly-increasing ids above the initial
counter, and are all active. -/
lemma placeAllPairs_spec {f : ℕ → ℕ} :
    ∀ (prs : List (TileType × TileType)) (st st' : PlaceState) (k' c' : ℕ),
      placeAllPairs f prs st = (some st', k', c') →
      ∃ used : Multiset Pos,
        (st.avail : Multiset Pos) = used + (st'.avail : Multiset Pos) ∧
        (st'.acc.map TileInstance.pos : Multiset Pos) =
          (st.acc.map TileInstance.pos : Multiset Pos) + used ∧
        st'.acc.map TileInstance.typeId =
          st.acc.map TileInstance.typeId ++
            prs.flatMap (fun pr => [pr.1.id, pr.2.id]) ∧
        st'.c = st.c + 2 * prs.length ∧
        st'.acc.length = st.acc.length + 2 * prs.length ∧
        (∀ t ∈ st'.acc, t ∈ st.acc ∨ (st.c < t.id ∧ t.isRemoved = false)) := by
  intro prs
  induction prs with
  | nil =>
    intro st st' k' c' h
    rw [placeAllPairs_nil] at h
    injection h with h1 h2
    injection h1 with h1
    subst h1
    exact ⟨0, by simp, by simp, by simp, by simp, by simp,
      fun t ht => Or.inl ht⟩
  | cons pr rest ih =>
    intro st st' k' c' h
    rw [placeAllPairs_cons] at h
    cases hstep : placePairStep f st pr with
    | none => rw [hstep] at h; exact absurd h (by simp)
    | some st2 =>
      rw [hstep] at h
      obtain ⟨p1, p2, hle, havail, hacc, hc⟩ := placePairStep_spec hstep
      obtain ⟨used2, hu1, hu2, hu3, hu4, hu5, hu6⟩ := ih st2 st' k' c' h
      refine ⟨{p1, p2} + used2, ?_, ?_, ?_, ?_, ?_, ?_⟩
      · have hsplit : (st.avail : Multiset Pos) =
            p1 ::ₘ p2 ::ₘ ((st.avail : Multiset Pos).erase p1).erase p2 :=
          cons_cons_erase_erase hle
        have hcoe2 : (st2.avail : Multiset Pos) =
            ((st.avail : Multiset Pos).erase p1).erase p2 := by
          rw [havail]
          rw [← Multiset.coe_erase, ← Multiset.coe_erase]
        rw [hcoe2] at hu1
        conv_lhs => rw [hsplit, hu1]
        simp only [Multiset.insert_eq_cons, ← Multiset.singleton_add]
        abel
      · have hmid : (st2.acc.map TileInstance.pos : Multiset Pos) =
            (st.acc.map TileInstance.pos : Multiset Pos) + {p1, p2} := by
          rw [hacc]
          simp only [List.map_append, ← Multiset.coe_add]
          congr 1
        rw [hu2, hmid]
        simp only [Multiset.insert_eq_cons, ← Multiset.singleton_add]
        abel
      · rw [hu3, hacc]
        simp
      · rw [hu4, hc]
        simp [List.length_cons]
        ring
      · rw [hu5, hacc]
        simp [List.length_append]
        ring
      · intro t ht
        rcases hu6 t ht with h2 | h2
        · rw [hacc] at h2
          rcases List.mem_append.mp h2 with h3 | h3
          · exact Or.inl h3
          · refine Or.inr ?_
            simp only [List.mem_cons, List.mem_singleton, List.not_mem_nil,
              or_false] at h3
            rcases h3 with rfl | rfl
            · exact ⟨by show st.c < st.c + 1; omega, rfl⟩
            · exact ⟨by show st.c < st.c + 2; omega, rfl⟩
        · exact Or.inr ⟨by omega, h2.2⟩

/-- Flatten a pair list back to its elements. -/
def flattenPairs {α : Type} (l : List (α × α)) : List α :=
  l.flatMap (fun pr => [pr.1, pr.2])

/-- Every match-group count in the list is even. -/
def EvenGroups (l : List TileType) : Prop :=
  ∀ key : String, Even (l.filter (fun t => groupKey t == key)).length

/-- Pairing-up an even-length list and flattening restores it. -/
lemma flattenPairs_pairUp {α : Type} :
    ∀ l : List α, Even l.length → flattenPairs (pairUp l) = l
  | [], _ => rfl
  | [a], h => by simp at h
  | a :: b :: rest, h => by
      have hr : Even rest.length := by
        rcases h with ⟨m, hm⟩
        simp only [List.length_cons] at hm
        exact ⟨m - 1, by omega⟩
      rw [pairUp]
      simp only [flattenPairs, List.flatMap_cons]
      rw [show (pairUp rest).flatMap (fun pr => [pr.1, pr.2]) =
        flattenPairs (pairUp rest) from rfl]
      rw [flattenPairs_pairUp rest hr]
      rfl

/-- Flattening doubles the length. -/
lemma flattenPairs_length {α : Type} (l : List (α × α)) :
    (flattenPairs l).length = 2 * l.length := by
  induction l with
  | nil => rfl
  | cons pr rest ih =>
    simp only [flattenPairs, List.flatMap_cons] at *
    simp [ih]
    omega

/-- A flatMap is, as a multiset, the sum of its pieces. -/
lemma coe_flatMap_sum {α β : Type} (keys : List α) (h : α → List β) :
    ((keys.flatMap h : List β) : Multiset β) =
      (keys.map (fun k => ((h k : List β) : Multiset β))).sum := by
  induction keys with
  | nil => rfl
  | cons k ks ih =>
    simp only [List.flatMap_cons, List.map_cons, List.sum_cons,
      ← Multiset.coe_add, ih]

/-- Sums distribute over pointwise-added maps. -/
lemma list_sum_map_add {α M : Type} [AddCommMonoid M] (l : List α)
    (f g : α → M) :
    (l.map (fun x => f x + g x)).sum = (l.map f).sum + (l.map g).sum := by
  induction l with
  | nil => simp
  | cons x xs ih =>
    simp only [List.map_cons, List.sum_cons, ih]
    abel

/-- Filtering by each key of a duplicate-free covering key list partitions
the list, as multisets. -/
lemma filter_partition_sum (l : List TileType) :
    ∀ keys : List String, keys.Nodup →
      (∀ t ∈ l, groupKey t ∈ keys) →
      (keys.map (fun key =>
        ((l.filter (fun t => groupKey t == key) : List TileType) :
          Multiset TileType))).sum = (l : Multiset TileType) := by
  induction l with
  | nil =>
    intro keys _ _
    simp
  | cons t rest ih =>
    intro keys hnd hcov
    have htk : groupKey t ∈ keys := hcov t (List.mem_cons_self ..)
    have hcovrest : ∀ u ∈ rest, groupKey u ∈ keys :=
      fun u hu => hcov u (List.mem_cons_of_mem _ hu)
    have hsum := ih keys hnd hcovrest
    -- relate filters of (t :: rest) with filters of rest
    have hkey : ∀ key : String,
        ((t :: rest).filter (fun u => groupKey u == key) : Multiset TileType) =
          (if groupKey t = key then {t} else 0) +
            (rest.filter (fun u => groupKey u == key) : List TileType) := by
      intro key
      by_cases hk : groupKey t = key
      · simp [List.filter_cons, hk]
      · simp [List.filter_cons, hk]
    have hmapeq : (keys.map (fun key =>
        (((t :: rest).filter (fun u => groupKey u == key) : List TileType) :
          Multiset TileType))).sum =
        (keys.map (fun key => (if groupKey t = key then ({t} : Multiset TileType)
            else 0))).sum +
        (keys.map (fun key =>
          ((rest.filter (fun u => groupKey u == key) : List TileType) :
            Multiset TileType))).sum := by
      rw [← list_sum_map_add]
      congr 1
      refine List.map_congr_left ?_
      intro key _
      exact hkey key
    rw [hmapeq, hsum]
    have hsingle : (keys.map (fun key =>
        (if groupKey t = key then ({t} : Multiset TileType) else 0))).sum =
        {t} := by
      clear hmapeq hsum hcov hcovrest ih
      induction keys with
      | nil => cases htk
      | cons k ks ihk =>
        simp only [List.map_cons, List.sum_cons]
        rcases List.mem_cons.mp htk with hk | hk
        · rw [if_pos hk]
          have hnotin : ∀ key ∈ ks, ¬ groupKey t = key := by
            intro key hkey hcon
            have : k ∈ ks := by rw [← hk, hcon]; exact hkey
            exact (List.nodup_cons.mp hnd).1 this
          have : (ks.map (fun key =>
              (if groupKey t = key then ({t} : Multiset TileType)
                else 0))).sum = 0 := by
            rw [List.map_congr_left (fun key hkey => if_neg (hnotin key hkey))]
            simp
          rw [this]
          simp
        · by_cases hkk : groupKey t = k
          · exact absurd (hkk ▸ hk) (List.nodup_cons.mp hnd).1
          · rw [if_neg hkk]
            rw [ihk (List.Nodup.of_cons hnd) hk]
            simp
    rw [hsingle]
    rfl

/-- Fold invariant of the insertion-ordered key collection. -/
lemma orderedKeys_aux (l : List TileType) :
    ∀ acc : List String, acc.Nodup →
      (l.foldl (fun ks t => if groupKey t ∈ ks then ks else ks ++ [groupKey t])
        acc).Nodup ∧
      (∀ s ∈ acc, s ∈ l.foldl
        (fun ks t => if groupKey t ∈ ks then ks else ks ++ [groupKey t]) acc) ∧
      (∀ t ∈ l, groupKey t ∈ l.foldl
        (fun ks t => if groupKey t ∈ ks then ks else ks ++ [groupKey t]) acc) := by
  induction l with
  | nil => exact fun acc hnd => ⟨hnd, fun s hs => hs, fun t ht => absurd ht
      (List.not_mem_nil t)⟩
  | cons t rest ih =>
    intro acc hnd
    simp only [List.foldl_cons]
    by_cases hmem : groupKey t ∈ acc
    · rw [if_pos hmem]
      obtain ⟨h1, h2, h3⟩ := ih acc hnd
      exact ⟨h1, h2, fun u hu => by
        rcases List.mem_cons.mp hu with rfl | hu2
        · exact h2 _ hmem
        · exact h3 u hu2⟩
    · rw [if_neg hmem]
      have hnd2 : (acc ++ [groupKey t]).Nodup := by
        simp [List.nodup_append, hnd, hmem]
      obtain ⟨h1, h2, h3⟩ := ih (acc ++ [groupKey t]) hnd2
      refine ⟨h1, fun s hs => h2 s (List.mem_append_left _ hs), fun u hu => ?_⟩
      rcases List.mem_cons.mp hu with rfl | hu2
      · exact h2 _ (List.mem_append_right _ (List.mem_singleton_self _))
      · exact h3 u hu2

/-- The collected keys are duplicate-free. -/
lemma orderedKeys_nodup (l : List TileType) : (orderedKeys l).Nodup :=
  (orderedKeys_aux l [] List.nodup_nil).1

/-- Every element's group key is collected. -/
lemma orderedKeys_covers (l : List TileType) :
    ∀ t ∈ l, groupKey t ∈ orderedKeys l :=
  (orderedKeys_aux l [] List.nodup_nil).2.2

/-- With even group counts, the matching pairs flatten back to the whole
type list, as multisets (no leftover singletons). -/
lemma buildMatchingPairs_flatten (l : List TileType) (h : EvenGroups l) :
    ((flattenPairs (buildMatchingPairs l) : List TileType) :
      Multiset TileType) = (l : Multiset TileType) := by
  have hstep : flattenPairs (buildMatchingPairs l) =
      (orderedKeys l).flatMap (fun key =>
        flattenPairs (pairUp ((l.filter
          (fun t => groupKey t == key)).reverse))) := by
    rw [buildMatchingPairs, flattenPairs, List.flatMap_assoc]
    rfl
  rw [hstep]
  have hper : ∀ key, flattenPairs (pairUp ((l.filter
      (fun t => groupKey t == key)).reverse)) =
      (l.filter (fun t => groupKey t == key)).reverse := by
    intro key
    refine flattenPairs_pairUp _ ?_
    rw [List.length_reverse]
    exact h key
  simp only [hper]
  rw [coe_flatMap_sum]
  rw [List.map_congr_left (fun key _ => Multiset.coe_reverse _)]
  exact filter_partition_sum l (orderedKeys l) (orderedKeys_nodup l)
    (orderedKeys_covers l)

/-- The pairwise id lists are the ids of the flattened pairs. -/
lemma flatMap_pair_ids (prs : List (TileType × TileType)) :
    prs.flatMap (fun pr => [pr.1.id, pr.2.id]) =
      (flattenPairs prs).map TileType.id := by
  induction prs with
  | nil => rfl
  | cons pr rest ih => simp only [flattenPairs, List.flatMap_cons,
      List.map_append, ih, List.map_cons, List.map_nil]

/-- With even group counts the pairs cover the whole list, two types
apiece. -/
lemma buildMatchingPairs_length (l : List TileType) (h : EvenGroups l) :
    2 * (buildMatchingPairs l).length = l.length := by
  have hcard := congrArg Multiset.card (buildMatchingPairs_flatten l h)
  simp only [Multiset.coe_card] at hcard
  rw [flattenPairs_length] at hcard
  omega

/-- Unfolding equation of `assignSolvableTypes`. -/
lemma assignSolvableTypes_eq (positions : List Pos) (types : List TileType)
    (f : ℕ → ℕ) (k c : ℕ) :
    assignSolvableTypes positions types f k c =
      match placeAllPairs f (fisherYates f (buildMatchingPairs types) k).1
          ⟨[], positions, [],
            (fisherYates f (buildMatchingPairs types) k).2, c⟩ with
      | (some st, k2, c2) => (some st.acc, k2, c2)
      | (none, k2, c2) => (none, k2, c2) := rfl

/-- A successful reverse-simulation assignment uses a submultiset of the
positions, places exactly two tiles per matching pair, realizes the pair
type multiset, and issues only fresh active tiles. -/
lemma assignSolvableTypes_spec {positions : List Pos} {types : List TileType}
    {f : ℕ → ℕ} {k c : ℕ} {tiles : List TileInstance} {k' c' : ℕ}
    (h : assignSolvableTypes positions types f k c = (some tiles, k', c')) :
    ∃ leftover : Multiset Pos,
      (positions : Multiset Pos) =
        (tiles.map TileInstance.pos : Multiset Pos) + leftover ∧
      tiles.length = 2 * (buildMatchingPairs types).length ∧
      (tiles.map TileInstance.typeId : Multiset String) =
        ((buildMatchingPairs types).flatMap (fun pr => [pr.1.id, pr.2.id]) :
          List String) ∧
      (∀ t ∈ tiles, c < t.id ∧ t.isRemoved = false) := by
  rw [assignSolvableTypes_eq] at h
  rcases hfy : fisherYates f (buildMatchingPairs types) k with ⟨sh, k1⟩
  have hsh : (fisherYates f (buildMatchingPairs types) k).1 = sh := by
    rw [hfy]
  have hk1 : (fisherYates f (buildMatchingPairs types) k).2 = k1 := by
    rw [hfy]
  rw [hsh, hk1] at h
  rcases hpa : placeAllPairs f sh ⟨[], positions, [], k1, c⟩ with ⟨res, k2, c2⟩
  rw [hpa] at h
  cases res with
  | none => simp at h
  | some st =>
    injection h with h1 h2
    injection h1 with h1
    subst h1
    obtain ⟨used, hu1, hu2, hu3, hu4, hu5, hu6⟩ :=
      placeAllPairs_spec sh _ st k2 c2 hpa
    have hshcoe : ((sh : List (TileType × TileType)) :
        Multiset (TileType × TileType)) = ↑(buildMatchingPairs types) := by
      have := fisherYates_fst_coe f (buildMatchingPairs types) k
      rw [hfy] at this
      exact this
    have hshperm : List.Perm sh (buildMatchingPairs types) :=
      Multiset.coe_eq_coe.mp hshcoe
    have hshlen : sh.length = (buildMatchingPairs types).length :=
      hshperm.length_eq
    refine ⟨(st.avail : Multiset Pos), ?_, ?_, ?_, ?_⟩
    · simp only [List.map_nil, Multiset.coe_nil, zero_add] at hu1 hu2
      rw [hu1, hu2]
    · simp only [List.length_nil, zero_add] at hu5
      rw [hu5, hshlen]
    · simp only [List.map_nil, List.nil_append] at hu3
      rw [hu3]
      exact Multiset.coe_eq_coe.mpr
        (hshperm.flatMap_right (fun pr => [pr.1.id, pr.2.id]))
    · intro t ht
      rcases hu6 t ht with hin | hgood
      · cases hin
      · exact hgood

/-- The id counter never decreases through the placement loop. -/
lemma placeAllPairs_c_mono {f : ℕ → ℕ} :
    ∀ (prs : List (TileType × TileType)) (st : PlaceState)
      (res : Option PlaceState) (k' c' : ℕ),
      placeAllPairs f prs st = (res, k', c') → st.c ≤ c' := by
  intro prs
  induction prs with
  | nil =>
    intro st res k' c' h
    rw [placeAllPairs_nil] at h
    injection h with h1 h2
    injection h2 with h2a h2b
    omega
  | cons pr rest ih =>
    intro st res k' c' h
    rw [placeAllPairs_cons] at h
    cases hstep : placePairStep f st pr with
    | none =>
      rw [hstep] at h
      injection h with h1 h2
      injection h2 with h2a h2b
      omega
    | some st2 =>
      rw [hstep] at h
      have := ih st2 res k' c' h
      obtain ⟨p1, p2, -, -, -, hc⟩ := placePairStep_spec hstep
      omega

/-- The id counter never decreases through an assignment attempt. -/
lemma assignSolvableTypes_c_mono {positions : List Pos}
    {types : List TileType} {f : ℕ → ℕ} {k c : ℕ}
    {res : Option (List TileInstance)} {k' c' : ℕ}
    (h : assignSolvableTypes positions types f k c = (res, k', c')) :
    c ≤ c' := by
  rw [assignSolvableTypes_eq] at h
  rcases hpa : placeAllPairs f (fisherYates f (buildMatchingPairs types) k).1
      ⟨[], positions, [], (fisherYates f (buildMatchingPairs types) k).2, c⟩
    with ⟨res2, k2, c2⟩
  rw [hpa] at h
  have hm := placeAllPairs_c_mono _ _ _ _ _ hpa
  cases res2 with
  | none =>
    injection h with h1 h2
    injection h2 with h2a h2b
    subst h2b
    exact hm
  | some st =>
    injection h with h1 h2
    injection h2 with h2a h2b
    subst h2b
    exact hm

/-- A successful retry loop comes from some successful single attempt whose
starting counter is at least the initial one. -/
lemma genAttempts_some {f : ℕ → ℕ} :
    ∀ {fuel : ℕ} {positions : List Pos} {types : List TileType} {k c : ℕ}
      {tiles : List TileInstance} {k' c' : ℕ},
      genAttempts f fuel positions types k c = (some tiles, k', c') →
      ∃ k0 c0, c ≤ c0 ∧ assignSolvableTypes positions types f k0 c0 =
        (some tiles, k', c') := by
  intro fuel
  induction fuel with
  | zero => intro _ _ _ _ _ _ _ h; simp [genAttempts] at h
  | succ fuel ih =>
    intro positions types k c tiles k' c' h
    rw [genAttempts_succ] at h
    rcases ha : assignSolvableTypes positions types f k c with ⟨res, k1, c1⟩
    rw [ha] at h
    cases res with
    | some t0 =>
      injection h with h1 h2
      injection h1 with h1
      injection h2 with h2a h2b
      subst h1
      subst h2a
      subst h2b
      exact ⟨k, c, le_refl c, ha⟩
    | none =>
      obtain ⟨k0, c0, hle, hasg⟩ := ih h
      exact ⟨k0, c0, le_trans (assignSolvableTypes_c_mono ha) hle, hasg⟩

/-- Even group counts are preserved by append. -/
lemma evenGroups_append {l1 l2 : List TileType} (h1 : EvenGroups l1)
    (h2 : EvenGroups l2) : EvenGroups (l1 ++ l2) := by
  intro key
  rw [List.filter_append, List.length_append]
  exact (h1 key).add (h2 key)

/-- An even replication of one type has even group counts. -/
lemma evenGroups_replicate (t : TileType) (n : ℕ) (hn : Even n) :
    EvenGroups (List.replicate n t) := by
  intro key
  rw [List.filter_replicate]
  split
  · simpa using hn
  · simp

/-- The empty list has even group counts. -/
lemma evenGroups_nil : EvenGroups [] := by
  intro key
  simp

/-- The random type-multiset loop preserves even group counts (it appends
2 or 4 copies of one type per iteration). -/
lemma buildTilePairs_even (posCount : ℕ) (acc avail : List TileType)
    (f : ℕ → ℕ) (k : ℕ) :
    EvenGroups acc → EvenGroups (buildTilePairs posCount acc avail f k).1 := by
  induction acc, avail, f, k using buildTilePairs.induct posCount with
  | case1 acc avail f k hlt idx type avail1 cnt avail2 ih =>
    intro hacc
    rw [buildTilePairs, dif_pos hlt]
    refine ih ?_
    refine evenGroups_append hacc (evenGroups_replicate _ _ ?_)
    unfold cnt
    split
    · exact ⟨2, rfl⟩
    · exact ⟨1, rfl⟩
  | case2 acc avail f k hge =>
    intro hacc
    rw [buildTilePairs, dif_neg hge]
    exact hacc

/-- The random type-multiset loop preserves even length. -/
lemma buildTilePairs_length_even (posCount : ℕ) (acc avail : List TileType)
    (f : ℕ → ℕ) (k : ℕ) :
    Even acc.length → Even (buildTilePairs posCount acc avail f k).1.length := by
  induction acc, avail, f, k using buildTilePairs.induct posCount with
  | case1 acc avail f k hlt idx type avail1 cnt avail2 ih =>
    intro hacc
    rw [buildTilePairs, dif_pos hlt]
    refine ih ?_
    simp only [List.length_append, List.length_replicate]
    rcases hacc with ⟨m, hm⟩
    unfold cnt
    split
    · exact ⟨m + 2, by omega⟩
    · exact ⟨m + 1, by omega⟩
  | case2 acc avail f k hge =>
    intro hacc
    rw [buildTilePairs, dif_neg hge]
    exact hacc

/-- The random type-multiset loop reaches the requested count. -/
lemma buildTilePairs_length_ge (posCount : ℕ) (acc avail : List TileType)
    (f : ℕ → ℕ) (k : ℕ) :
    posCount ≤ (buildTilePairs posCount acc avail f k).1.length := by
  induction acc, avail, f, k using buildTilePairs.induct posCount with
  | case1 acc avail f k hlt idx type avail1 cnt avail2 ih =>
    rw [buildTilePairs, dif_pos hlt]
    exact ih
  | case2 acc avail f k hge =>
    rw [buildTilePairs, dif_neg hge]
    exact show posCount ≤ acc.length by omega

/-- The random type-multiset loop overshoots by at most one. -/
lemma buildTilePairs_length_le (posCount : ℕ) (acc avail : List TileType)
    (f : ℕ → ℕ) (k : ℕ) :
    acc.length ≤ posCount + 1 →
    (buildTilePairs posCount acc avail f k).1.length ≤ posCount + 1 := by
  induction acc, avail, f, k using buildTilePairs.induct posCount with
  | case1 acc avail f k hlt idx type avail1 cnt avail2 ih =>
    intro hle
    rw [buildTilePairs, dif_pos hlt]
    refine ih ?_
    simp only [List.length_append, List.length_replicate]
    unfold cnt
    split <;> omega
  | case2 acc avail f k hge =>
    intro hle
    rw [buildTilePairs, dif_neg hge]
    exact hle

/-- Filtering a 4-fold replication quadruples the filtered length. -/
lemma filter_flatMap_replicate_length (l : List TileType)
    (p : TileType → Bool) :
    ((l.flatMap (fun t => List.replicate 4 t)).filter p).length =
      4 * (l.filter p).length := by
  induction l with
  | nil => rfl
  | cons t rest ih =>
    simp only [List.flatMap_cons, List.filter_append, List.length_append, ih,
      List.filter_replicate, List.filter_cons]
    split
    · simp only [List.length_replicate, List.length_cons]
      ring
    · simp only [List.length_nil]
      ring

/-- The grouped types of the catalog are exactly the bonus tiles. -/
lemma bonus_filter_eq :
    ALL_TILE_TYPES.filter (fun t => t.matchGroup.isSome) = BONUS_TILES := by
  rfl

/-- The bonus tiles pair up evenly (4 flowers, 4 seasons). -/
lemma evenGroups_bonus : EvenGroups BONUS_TILES := by
  intro key
  have hkeys : ∀ b ∈ BONUS_TILES,
      groupKey b = "flowers" ∨ groupKey b = "seasons" := by decide
  by_cases hf : key = "flowers"
  · subst hf
    decide
  · by_cases hs : key = "seasons"
    · subst hs
      decide
    · have hnil : BONUS_TILES.filter (fun t => groupKey t == key) = [] := by
        rw [List.filter_eq_nil_iff]
        intro b hb
        simp only [beq_iff_eq]
        rcases hkeys b hb with hbk | hbk <;> rw [hbk] <;> intro hcon
        · exact hf hcon.symm
        · exact hs hcon.symm
      rw [hnil]
      simp

/-- The full 144-tile multiset has even group counts. -/
lemma evenGroups_standardFullSet : EvenGroups standardFullSet := by
  rw [standardFullSet, bonus_filter_eq]
  refine evenGroups_append ?_ evenGroups_bonus
  intro key
  rw [filter_flatMap_replicate_length]
  exact ⟨2 * (STANDARD_TILES.filter (fun t => groupKey t == key)).length,
    by ring⟩

/-- The constructed type multiset always has even group counts. -/
lemma mkTilePairs_even (n : ℕ) (f : ℕ → ℕ) (k : ℕ) :
    EvenGroups (mkTilePairs n f k).1 := by
  rw [mkTilePairs]
  split
  · exact evenGroups_standardFullSet
  · exact buildTilePairs_even n [] STANDARD_TILES f k evenGroups_nil

/-- The constructed type multiset covers the position count. -/
lemma mkTilePairs_length_ge (n : ℕ) (f : ℕ → ℕ) (k : ℕ) :
    n ≤ (mkTilePairs n f k).1.length := by
  rw [mkTilePairs]
  split
  · next h => rw [h]; rfl
  · exact buildTilePairs_length_ge n [] STANDARD_TILES f k

/-- For an even position count the constructed type multiset has exactly
that many types. -/
lemma mkTilePairs_length_of_even (n : ℕ) (f : ℕ → ℕ) (k : ℕ) (hn : Even n) :
    (mkTilePairs n f k).1.length = n := by
  rw [mkTilePairs]
  split
  · next h => rw [h]; rfl
  · have h1 := buildTilePairs_length_ge n [] STANDARD_TILES f k
    have h2 := buildTilePairs_length_le n [] STANDARD_TILES f k (by simp)
    have h3 := buildTilePairs_length_even n [] STANDARD_TILES f k (by simp)
    rcases h3 with ⟨m, hm⟩
    rcases hn with ⟨p, hp⟩
    omega

/-- The degraded fallback produces one tile per position. -/
lemma fallbackTiles_length (positions : List Pos) (tp : List TileType)
    (c : ℕ) : (fallbackTiles positions tp c).length = positions.length := by
  simp [fallbackTiles]

/-- The degraded fallback occupies exactly the layout positions. -/
lemma fallbackTiles_pos (positions : List Pos) (tp : List TileType) (c : ℕ) :
    (fallbackTiles positions tp c).map TileInstance.pos = positions := by
  rw [fallbackTiles, List.map_map]
  have hcomp : (TileInstance.pos ∘ fun pi : ℕ × Pos =>
      (⟨c + pi.1 + 1, (tp.getD pi.1 default).id, pi.2.x, pi.2.y, pi.2.z,
        false⟩ : TileInstance)) = Prod.snd := by
    funext pi
    rfl
  rw [hcomp, List.enum_map_snd]

/-- Unfolding equation of `generateBoardAttempts`. -/
lemma generateBoardAttempts_eq (layout : Layout) (f : ℕ → ℕ) :
    generateBoardAttempts layout f = genAttempts f 50 layout.positions
      (mkTilePairs layout.positions.length f 0).1
      (mkTilePairs layout.positions.length f 0).2 0 := rfl

/-- Unfolding equation of `generateBoard`. -/
lemma generateBoard_eq (layout : Layout) (f : ℕ → ℕ) :
    generateBoard layout f =
      match generateBoardAttempts layout f with
      | (some tiles, _, _) => ⟨tiles, layout⟩
      | (none, _, c) => ⟨fallbackTiles layout.positions
          (mkTilePairs layout.positions.length f 0).1 c, layout⟩ := rfl

/-- C5: `generateBoard` returns exactly one tile per layout position on both
paths — the tile count equals the position count and the multiset of tile
positions equals the multiset of layout positions — and on the non-degraded
path the multiset of tile type ids equals the constructed input type
multiset, whose match-group counts are all even. -/
theorem generateBoard_tiles_spec (layout : Layout) (f : ℕ → ℕ) :
    (generateBoard layout f).tiles.length = layout.positions.length ∧
    ((generateBoard layout f).tiles.map TileInstance.pos : Multiset Pos) =
      (layout.positions : Multiset Pos) ∧
    (∀ tiles k' c', generateBoardAttempts layout f = (some tiles, k', c') →
      ((tiles.map TileInstance.typeId : Multiset String) =
        ↑(((mkTilePairs layout.positions.length f 0).1).map TileType.id) ∧
       EvenGroups (mkTilePairs layout.positions.length f 0).1)) := by
  rcases hA : generateBoardAttempts layout f with ⟨res, kf, cf⟩
  have hboard := generateBoard_eq layout f
  rw [hA] at hboard
  cases res with
  | none =>
    refine ⟨?_, ?_, ?_⟩
    · rw [hboard]
      exact fallbackTiles_length _ _ _
    · rw [hboard]
      rw [fallbackTiles_pos]
    · intro tiles k' c' hsome
      exact absurd hsome (by simp)
  | some tiles0 =>
    have hEG : EvenGroups (mkTilePairs layout.positions.length f 0).1 :=
      mkTilePairs_even _ f _
    have hG : genAttempts f 50 layout.positions
        (mkTilePairs layout.positions.length f 0).1
        (mkTilePairs layout.positions.length f 0).2 0 =
        (some tiles0, kf, cf) := by
      rw [← generateBoardAttempts_eq]
      exact hA
    obtain ⟨k0, c0, -, hasg⟩ := genAttempts_some hG
    obtain ⟨leftover, hleft, hlen, hty, -⟩ := assignSolvableTypes_spec hasg
    have hpairs := buildMatchingPairs_length
      (mkTilePairs layout.positions.length f 0).1 hEG
    have htplen : tiles0.length =
        (mkTilePairs layout.positions.length f 0).1.length := by omega
    have hge := mkTilePairs_length_ge layout.positions.length f 0
    have hcard := congrArg Multiset.card hleft
    simp only [Multiset.coe_card, Multiset.card_add, List.length_map] at hcard
    have hl0 : Multiset.card leftover = 0 := by omega
    have hleftzero : leftover = 0 := Multiset.card_eq_zero.mp hl0
    rw [hleftzero, add_zero] at hleft
    refine ⟨?_, ?_, ?_⟩
    · rw [hboard]
      simp only
      have := congrArg Multiset.card hleft
      simp only [Multiset.coe_card, List.length_map] at this
      omega
    · rw [hboard]
      exact hleft.symm
    · intro tiles k' c' hsome
      injection hsome with h1 h2
      injection h1 with h1
      subst h1
      refine ⟨?_, hEG⟩
      rw [hty, flatMap_pair_ids]
      have hflat := buildMatchingPairs_flatten
        (mkTilePairs layout.positions.length f 0).1 hEG
      calc ((flattenPairs (buildMatchingPairs
            (mkTilePairs layout.positions.length f 0).1)).map TileType.id :
              Multiset String)
          = Multiset.map TileType.id ↑(flattenPairs (buildMatchingPairs
              (mkTilePairs layout.positions.length f 0).1)) := by
            rw [Multiset.map_coe]
        _ = Multiset.map TileType.id
              ↑((mkTilePairs layout.positions.length f 0).1) := by rw [hflat]
        _ = ↑(((mkTilePairs layout.positions.length f 0).1).map
              TileType.id) := by rw [Multiset.map_coe]

/-- Witness for `generateBoard_tiles_spec` on a two-position layout whose
generation succeeds on the first attempt. -/
theorem generateBoard_tiles_spec_witness :
    (generateBoardAttempts ⟨"p2", "p2", "", [⟨0,0,0⟩, ⟨10,0,0⟩]⟩
        (fun _ => 0) =
      (some [⟨1, "dot-1", 0, 0, 0, false⟩, ⟨2, "dot-1", 10, 0, 0, false⟩],
        3, 2)) ∧
    (([⟨1, "dot-1", 0, 0, 0, false⟩,
        ⟨2, "dot-1", 10, 0, 0, false⟩].map TileInstance.typeId :
        Multiset String) =
      ↑(((mkTilePairs
        (⟨"p2", "p2", "", [⟨0,0,0⟩, ⟨10,0,0⟩]⟩ : Layout).positions.length
        (fun _ => 0) 0).1).map TileType.id)) := by
  have hgen : generateBoardAttempts ⟨"p2", "p2", "", [⟨0,0,0⟩, ⟨10,0,0⟩]⟩
      (fun _ => 0) =
      (some [⟨1, "dot-1", 0, 0, 0, false⟩, ⟨2, "dot-1", 10, 0, 0, false⟩],
        3, 2) := by
    with_unfolding_all decide
  refine ⟨hgen, ?_⟩
  exact ((generateBoard_tiles_spec ⟨"p2", "p2", "", [⟨0,0,0⟩, ⟨10,0,0⟩]⟩
    (fun _ => 0)).2.2 _ 3 2 hgen).1

/-- A successful catalog lookup returns the type with the looked-up id. -/
lemma getTileTypeById_id {s : String} {ty : TileType}
    (h : getTileTypeById s = some ty) : ty.id = s := by
  have := List.find?_some h
  simpa using this

/-- A filterMap that never fails preserves length. -/
lemma filterMap_total_length {α β : Type} (g : α → Option β) :
    ∀ l : List α, (∀ x ∈ l, (g x).isSome) →
      (l.filterMap g).length = l.length := by
  intro l
  induction l with
  | nil => intro _; rfl
  | cons x rest ih =>
    intro hall
    have hx := hall x (List.mem_cons_self ..)
    rcases hgx : g x with - | y
    · rw [hgx] at hx; simp at hx
    · simp only [List.filterMap_cons, hgx, List.length_cons]
      rw [ih (fun u hu => hall u (List.mem_cons_of_mem _ hu))]

/-- Resolving each tile's type and taking ids returns the tiles' type
ids. -/
lemma resolved_types_map_id (l : List TileInstance)
    (hall : ∀ t ∈ l, (getTileTypeById t.typeId).isSome) :
    (l.filterMap (fun t => getTileTypeById t.typeId)).map TileType.id =
      l.map TileInstance.typeId := by
  induction l with
  | nil => rfl
  | cons t rest ih =>
    have ht := hall t (List.mem_cons_self ..)
    rcases hgt : getTileTypeById t.typeId with - | ty
    · rw [hgt] at ht; simp at ht
    · simp only [List.filterMap_cons, hgt, List.map_cons]
      rw [getTileTypeById_id hgt,
        ih (fun u hu => hall u (List.mem_cons_of_mem _ hu))]


/-- The id counter never decreases through the retry loop. -/
lemma genAttempts_c_mono {f : ℕ → ℕ} :
    ∀ {fuel : ℕ} {positions : List Pos} {types : List TileType} {k c : ℕ}
      {res : Option (List TileInstance)} {k' c' : ℕ},
      genAttempts f fuel positions types k c = (res, k', c') → c ≤ c' := by
  intro fuel
  induction fuel with
  | zero =>
    intro _ _ _ _ _ _ _ h
    injection h with h1 h2
    injection h2 with h2a h2b
    omega
  | succ fuel ih =>
    intro positions types k c res k' c' h
    rw [genAttempts_succ] at h
    rcases ha : assignSolvableTypes positions types f k c with ⟨res0, k1, c1⟩
    rw [ha] at h
    cases res0 with
    | some t0 =>
      injection h with h1 h2
      injection h2 with h2a h2b
      subst h2b
      exact assignSolvableTypes_c_mono ha
    | none => exact le_trans (assignSolvableTypes_c_mono ha) (ih h)

/-- Mapping an indexed lookup over the enumeration of an equally-long list
is just mapping over the looked-up list. -/
lemma enum_getD_map {α β : Type} [Inhabited α] (ps : List Pos) (l : List α)
    (hlen : ps.length = l.length) (g : α → β) :
    ps.enum.map (fun pi => g (l.getD pi.1 default)) = l.map g := by
  apply List.ext_getElem
  · simp [hlen]
  · intro i h1 h2
    have hi : i < l.length := by
      simp only [List.length_map, List.enum_length] at h1
      omega
    simp only [List.getElem_map, List.getElem_enum]
    rw [List.getD_eq_getElem _ _ hi]

/-- Unfolding equation of `shuffleBoard`. -/
lemma shuffleBoard_eq (board : GameBoard) (f : ℕ → ℕ) (k c : ℕ) :
    shuffleBoard board f k c =
      match genAttempts f 20
          ((board.tiles.filter (fun t => !t.isRemoved)).map TileInstance.pos)
          ((board.tiles.filter (fun t => !t.isRemoved)).filterMap
            (fun t => getTileTypeById t.typeId)) k c with
      | (some newActiveTiles, k1, c1) =>
          (⟨newActiveTiles ++ board.tiles.filter (fun t => t.isRemoved),
            board.layout⟩, k1, c1)
      | (none, k1, c1) =>
          (⟨((board.tiles.filter (fun t => !t.isRemoved)).map
                TileInstance.pos).enum.map (fun pi =>
              (⟨c1 + pi.1 + 1,
                (((fisherYates f ((board.tiles.filter
                    (fun t => !t.isRemoved)).filterMap
                      (fun t => getTileTypeById t.typeId)) k1).1).getD
                  pi.1 default).id,
                pi.2.x, pi.2.y, pi.2.z, false⟩ : TileInstance)) ++
              board.tiles.filter (fun t => t.isRemoved),
            board.layout⟩,
           (fisherYates f ((board.tiles.filter
              (fun t => !t.isRemoved)).filterMap
                (fun t => getTileTypeById t.typeId)) k1).2,
           c1 + ((board.tiles.filter (fun t => !t.isRemoved)).map
              TileInstance.pos).length) := rfl

/-- Properties of the shuffle fallback tiles: all active and fresh, they
occupy exactly the given positions and carry the permuted types in
order. -/
lemma fallback_fb_spec (ps : List Pos) (types2 : List TileType)
    (rems : List TileInstance) (c1 : ℕ)
    (hrems : ∀ t ∈ rems, t.isRemoved = true) :
    ((ps.enum.map (fun pi =>
        (⟨c1 + pi.1 + 1, (types2.getD pi.1 default).id,
          pi.2.x, pi.2.y, pi.2.z, false⟩ : TileInstance)) ++ rems).filter
      (fun t => !t.isRemoved) =
      ps.enum.map (fun pi =>
        (⟨c1 + pi.1 + 1, (types2.getD pi.1 default).id,
          pi.2.x, pi.2.y, pi.2.z, false⟩ : TileInstance))) ∧
    ((ps.enum.map (fun pi =>
        (⟨c1 + pi.1 + 1, (types2.getD pi.1 default).id,
          pi.2.x, pi.2.y, pi.2.z, false⟩ : TileInstance)) ++ rems).filter
      (fun t => t.isRemoved) = rems) ∧
    (ps.enum.map (fun pi =>
        (⟨c1 + pi.1 + 1, (types2.getD pi.1 default).id,
          pi.2.x, pi.2.y, pi.2.z, false⟩ : TileInstance))).map
      TileInstance.pos = ps ∧
    (ps.length = types2.length →
      (ps.enum.map (fun pi =>
          (⟨c1 + pi.1 + 1, (types2.getD pi.1 default).id,
            pi.2.x, pi.2.y, pi.2.z, false⟩ : TileInstance))).map
        TileInstance.typeId = types2.map TileType.id) ∧
    (∀ u ∈ ps.enum.map (fun pi =>
        (⟨c1 + pi.1 + 1, (types2.getD pi.1 default).id,
          pi.2.x, pi.2.y, pi.2.z, false⟩ : TileInstance)),
      u.isRemoved = false ∧ c1 < u.id) := by
  have hactive : ∀ u ∈ ps.enum.map (fun pi =>
      (⟨c1 + pi.1 + 1, (types2.getD pi.1 default).id,
        pi.2.x, pi.2.y, pi.2.z, false⟩ : TileInstance)),
      u.isRemoved = false ∧ c1 < u.id := by
    intro u hu
    obtain ⟨pi, -, rfl⟩ := List.mem_map.mp hu
    exact ⟨rfl, by show c1 < c1 + pi.1 + 1; omega⟩
  refine ⟨?_, ?_, ?_, ?_, hactive⟩
  · rw [List.filter_append]
    rw [List.filter_eq_self.mpr (fun t ht => by
      simp [(hactive t ht).1])]
    rw [List.filter_eq_nil_iff.mpr (fun t ht => by
      simp [hrems t ht])]
    simp
  · rw [List.filter_append]
    rw [List.filter_eq_nil_iff.mpr (fun t ht => by
      simp [(hactive t ht).1])]
    rw [List.filter_eq_self.mpr (fun t ht => hrems t ht)]
    simp
  · rw [List.map_map]
    have hcomp : (TileInstance.pos ∘ fun pi : ℕ × Pos =>
        (⟨c1 + pi.1 + 1, (types2.getD pi.1 default).id,
          pi.2.x, pi.2.y, pi.2.z, false⟩ : TileInstance)) = Prod.snd := by
      funext pi
      rfl
    rw [hcomp, List.enum_map_snd]
  · intro hlen
    rw [List.map_map]
    have hcomp : (TileInstance.typeId ∘ fun pi : ℕ × Pos =>
        (⟨c1 + pi.1 + 1, (types2.getD pi.1 default).id,
          pi.2.x, pi.2.y, pi.2.z, false⟩ : TileInstance)) =
        (fun pi : ℕ × Pos => TileType.id (types2.getD pi.1 default)) := by
      funext pi
      rfl
    rw [hcomp]
    exact enum_getD_map ps types2 hlen TileType.id

/-- C4 (amended): for boards whose active tiles all resolve in the catalog,
whose active type multiset has even match-group counts, and whose ids are
all at most the current id counter, `shuffleBoard` keeps the layout,
preserves the multiset of active positions and the multiset of active type
ids, carries every removed tile through unchanged, and issues every active
output tile a fresh id distinct from every input id. The three provisos are
forced by the counterexample `shuffleBoard_active_positions_cex`, where an
odd type group makes the solvable-assignment path drop a tile. -/
theorem shuffleBoard_spec (board : GameBoard) (f : ℕ → ℕ) (k c : ℕ)
    (hres : ∀ t ∈ board.tiles, t.isRemoved = false →
      (getTileTypeById t.typeId).isSome = true)
    (heven : EvenGroups ((board.tiles.filter
      (fun t => !t.isRemoved)).filterMap (fun t => getTileTypeById t.typeId)))
    (hids : ∀ t ∈ board.tiles, t.id ≤ c) :
    (shuffleBoard board f k c).1.layout = board.layout ∧
    (((shuffleBoard board f k c).1.tiles.filter (fun t => !t.isRemoved)).map
        TileInstance.pos : Multiset Pos) =
      ((board.tiles.filter (fun t => !t.isRemoved)).map TileInstance.pos :
        Multiset Pos) ∧
    (((shuffleBoard board f k c).1.tiles.filter (fun t => !t.isRemoved)).map
        TileInstance.typeId : Multiset String) =
      ((board.tiles.filter (fun t => !t.isRemoved)).map TileInstance.typeId :
        Multiset String) ∧
    (shuffleBoard board f k c).1.tiles.filter (fun t => t.isRemoved) =
      board.tiles.filter (fun t => t.isRemoved) ∧
    (∀ u ∈ (shuffleBoard board f k c).1.tiles, u.isRemoved = false →
      ∀ t ∈ board.tiles, u.id ≠ t.id) := by
  have hallsome : ∀ t ∈ board.tiles.filter (fun t => !t.isRemoved),
      (getTileTypeById t.typeId).isSome = true := by
    intro t ht
    rw [List.mem_filter] at ht
    exact hres t ht.1 (by simpa using ht.2)
  have hremsall : ∀ t ∈ board.tiles.filter (fun t => t.isRemoved),
      t.isRemoved = true := by
    intro t ht
    exact (List.mem_filter.mp ht).2
  have htyid : ((board.tiles.filter (fun t => !t.isRemoved)).filterMap
      (fun t => getTileTypeById t.typeId)).map TileType.id =
      (board.tiles.filter (fun t => !t.isRemoved)).map TileInstance.typeId :=
    resolved_types_map_id _ hallsome
  have htylen : ((board.tiles.filter (fun t => !t.isRemoved)).filterMap
      (fun t => getTileTypeById t.typeId)).length =
      (board.tiles.filter (fun t => !t.isRemoved)).length :=
    filterMap_total_length _ _ hallsome
  have hflat := buildMatchingPairs_flatten _ heven
  have hpairs := buildMatchingPairs_length _ heven
  rw [shuffleBoard_eq]
  rcases hGA : genAttempts f 20
      ((board.tiles.filter (fun t => !t.isRemoved)).map TileInstance.pos)
      ((board.tiles.filter (fun t => !t.isRemoved)).filterMap
        (fun t => getTileTypeById t.typeId)) k c with ⟨res, k1, c1⟩
  rw [hGA]
  cases res with
  | some newActive =>
    obtain ⟨k0, c0, hc0, hasg⟩ := genAttempts_some hGA
    obtain ⟨leftover, hleft, hlen, hty, hfresh⟩ :=
      assignSolvableTypes_spec hasg
    have hactnew : ∀ t ∈ newActive, t.isRemoved = false :=
      fun t ht => (hfresh t ht).2
    have hfilter1 : (newActive ++
        board.tiles.filter (fun t => t.isRemoved)).filter
          (fun t => !t.isRemoved) = newActive := by
      rw [List.filter_append]
      rw [List.filter_eq_self.mpr (fun t ht => by
        simp [hactnew t ht])]
      rw [List.filter_eq_nil_iff.mpr (fun t ht => by
        simp [hremsall t ht])]
      simp
    have hfilter2 : (newActive ++
        board.tiles.filter (fun t => t.isRemoved)).filter
          (fun t => t.isRemoved) = board.tiles.filter (fun t => t.isRemoved)
        := by
      rw [List.filter_append]
      rw [List.filter_eq_nil_iff.mpr (fun t ht => by
        simp [hactnew t ht])]
      rw [List.filter_eq_self.mpr (fun t ht => hremsall t ht)]
      simp
    -- the leftover is empty: counting
    have hcard := congrArg Multiset.card hleft
    simp only [Multiset.coe_card, Multiset.card_add, List.length_map]
      at hcard
    have hl0 : Multiset.card leftover = 0 := by omega
    rw [Multiset.card_eq_zero.mp hl0, add_zero] at hleft
    refine ⟨rfl, ?_, ?_, hfilter2, ?_⟩
    · rw [hfilter1]
      exact hleft.symm
    · rw [hfilter1, hty, flatMap_pair_ids]
      calc ((flattenPairs (buildMatchingPairs _)).map TileType.id :
            Multiset String)
          = Multiset.map TileType.id ↑(flattenPairs (buildMatchingPairs
              ((board.tiles.filter (fun t => !t.isRemoved)).filterMap
                (fun t => getTileTypeById t.typeId)))) := by
            rw [Multiset.map_coe]
        _ = Multiset.map TileType.id
              ↑((board.tiles.filter (fun t => !t.isRemoved)).filterMap
                (fun t => getTileTypeById t.typeId)) := by rw [hflat]
        _ = ↑(((board.tiles.filter (fun t => !t.isRemoved)).filterMap
              (fun t => getTileTypeById t.typeId)).map TileType.id) := by
            rw [Multiset.map_coe]
        _ = ↑((board.tiles.filter (fun t => !t.isRemoved)).map
              TileInstance.typeId) := by rw [htyid]
    · intro u hu hur t ht
      rcases List.mem_append.mp hu with hun | hur2
      · have := (hfresh u hun).1
        have := hids t ht
        omega
      · rw [hremsall u hur2] at hur
        cases hur
  | none =>
    have hc1 : c ≤ c1 := genAttempts_c_mono hGA
    have hfb_active : ∀ t ∈ ((board.tiles.filter
        (fun t => !t.isRemoved)).map TileInstance.pos).enum.map (fun pi =>
          (⟨c1 + pi.1 + 1,
            (((fisherYates f ((board.tiles.filter
                (fun t => !t.isRemoved)).filterMap
                  (fun t => getTileTypeById t.typeId)) k1).1).getD
              pi.1 default).id,
            pi.2.x, pi.2.y, pi.2.z, false⟩ : TileInstance)),
        t.isRemoved = false := by
      intro t ht
      obtain ⟨pi, -, rfl⟩ := List.mem_map.mp ht
      rfl
    have hfb_fresh : ∀ t ∈ ((board.tiles.filter
        (fun t => !t.isRemoved)).map TileInstance.pos).enum.map (fun pi =>
          (⟨c1 + pi.1 + 1,
            (((fisherYates f ((board.tiles.filter
                (fun t => !t.isRemoved)).filterMap
                  (fun t => getTileTypeById t.typeId)) k1).1).getD
              pi.1 default).id,
            pi.2.x, pi.2.y, pi.2.z, false⟩ : TileInstance)),
        c1 < t.id := by
      intro t ht
      obtain ⟨pi, -, rfl⟩ := List.mem_map.mp ht
      show c1 < c1 + pi.1 + 1
      omega
    have hc1 : c ≤ c1 := genAttempts_c_mono hGA
    obtain ⟨hf1, hf2, hf3, hf4, hf5⟩ := fallback_fb_spec
      ((board.tiles.filter (fun t => !t.isRemoved)).map TileInstance.pos)
      ((fisherYates f ((board.tiles.filter
        (fun t => !t.isRemoved)).filterMap
          (fun t => getTileTypeById t.typeId)) k1).1)
      (board.tiles.filter (fun t => t.isRemoved)) c1 hremsall
    have htypes2coe := fisherYates_fst_coe f
      ((board.tiles.filter (fun t => !t.isRemoved)).filterMap
        (fun t => getTileTypeById t.typeId)) k1
    have hlen2 : ((board.tiles.filter (fun t => !t.isRemoved)).map
        TileInstance.pos).length =
        ((fisherYates f ((board.tiles.filter
          (fun t => !t.isRemoved)).filterMap
            (fun t => getTileTypeById t.typeId)) k1).1).length := by
      have hcard := congrArg Multiset.card htypes2coe
      simp only [Multiset.coe_card] at hcard
      simp only [List.length_map]
      omega
    refine ⟨rfl, ?_, ?_, hf2, ?_⟩
    · rw [hf1, hf3]
    · rw [hf1, hf4 hlen2]
      calc (((fisherYates f ((board.tiles.filter
            (fun t => !t.isRemoved)).filterMap
              (fun t => getTileTypeById t.typeId)) k1).1).map TileType.id :
            Multiset String)
          = Multiset.map TileType.id ↑((fisherYates f
              ((board.tiles.filter (fun t => !t.isRemoved)).filterMap
                (fun t => getTileTypeById t.typeId)) k1).1) := by
            rw [Multiset.map_coe]
        _ = Multiset.map TileType.id
              ↑((board.tiles.filter (fun t => !t.isRemoved)).filterMap
                (fun t => getTileTypeById t.typeId)) := by rw [htypes2coe]
        _ = ↑(((board.tiles.filter (fun t => !t.isRemoved)).filterMap
              (fun t => getTileTypeById t.typeId)).map TileType.id) := by
            rw [Multiset.map_coe]
        _ = ↑((board.tiles.filter (fun t => !t.isRemoved)).map
              TileInstance.typeId) := by rw [htyid]
    · intro u hu hur t ht
      rcases List.mem_append.mp hu with hun | hur2
      · have h1 := (hf5 u hun).2
        have h2 := hids t ht
        omega
      · rw [hremsall u hur2] at hur
        cases hur

/-- Counterexample to C4 as stated: a board with three active tiles of one
type (odd group count) loses an active position under `shuffleBoard` — the
pairing step pairs only two of the three copies and the leftover tile is
never placed. -/
theorem shuffleBoard_active_positions_cex :
    ¬ ((((shuffleBoard
        ⟨[⟨1, "dot-1", 0, 0, 0, false⟩, ⟨2, "dot-1", 10, 0, 0, false⟩,
          ⟨3, "dot-1", 20, 0, 0, false⟩], ⟨"l3", "l3", "", []⟩⟩
        (fun _ => 0) 0 10).1.tiles.filter (fun t => !t.isRemoved)).map
          TileInstance.pos : Multiset Pos) =
      ((([⟨1, "dot-1", 0, 0, 0, false⟩, ⟨2, "dot-1", 10, 0, 0, false⟩,
          ⟨3, "dot-1", 20, 0, 0, false⟩] :
            List TileInstance).filter (fun t => !t.isRemoved)).map
          TileInstance.pos : Multiset Pos)) := by
  with_unfolding_all decide

/-- Witness for `shuffleBoard_spec` on a two-active-tile board with one
removed tile. -/
theorem shuffleBoard_spec_witness :
    ((∀ t ∈ (⟨[⟨1, "dot-1", 0, 0, 0, false⟩, ⟨2, "dot-1", 10, 0, 0, false⟩,
        ⟨3, "dot-2", 5, 5, 0, true⟩], ⟨"l2", "l2", "", []⟩⟩ :
          GameBoard).tiles, t.id ≤ 10) ∧
     (((shuffleBoard
        ⟨[⟨1, "dot-1", 0, 0, 0, false⟩, ⟨2, "dot-1", 10, 0, 0, false⟩,
          ⟨3, "dot-2", 5, 5, 0, true⟩], ⟨"l2", "l2", "", []⟩⟩
        (fun _ => 0) 0 10).1.tiles.filter (fun t => !t.isRemoved)).map
          TileInstance.pos : Multiset Pos) =
      ((([⟨1, "dot-1", 0, 0, 0, false⟩, ⟨2, "dot-1", 10, 0, 0, false⟩,
          ⟨3, "dot-2", 5, 5, 0, true⟩] :
            List TileInstance).filter (fun t => !t.isRemoved)).map
          TileInstance.pos : Multiset Pos)) := by
  refine ⟨by decide, ?_⟩
  have he : ((⟨[⟨1, "dot-1", 0, 0, 0, false⟩, ⟨2, "dot-1", 10, 0, 0, false⟩,
      ⟨3, "dot-2", 5, 5, 0, true⟩], ⟨"l2", "l2", "", []⟩⟩ :
        GameBoard).tiles.filter (fun t => !t.isRemoved)).filterMap
      (fun t => getTileTypeById t.typeId) =
      List.replicate 2 ⟨"dot-1", none⟩ := by
    with_unfolding_all rfl
  exact (shuffleBoard_spec
    ⟨[⟨1, "dot-1", 0, 0, 0, false⟩, ⟨2, "dot-1", 10, 0, 0, false⟩,
      ⟨3, "dot-2", 5, 5, 0, true⟩], ⟨"l2", "l2", "", []⟩⟩
    (fun _ => 0) 0 10
    (by with_unfolding_all decide)
    (by rw [he]; exact evenGroups_replicate _ 2 ⟨1, rfl⟩)
    (by decide)).2.1
